import Mathlib

/-!
# Replication core of the distributed file store (`server.go`)

A shallow embedding of `FileServer` (`server.go`) together with the part of
`encoding/gob` and `io` that `broadcast`, `StoreData` and `loop` run through.

* Go `[]byte` and `string` are lists of `UInt8`.
* The collaborators (`Store`, `p2p.Peer`, `p2p.Transport`) are oracles that
  answer from the history of events so far.
* Every operation returns the events it performs, in program order.
* The `peers` map is the list of its entries in the order a `range` visits
  them; Go leaves that order open, and the theorems hold for every order.
* `encoding/gob` and `io.MultiWriter` follow the Go standard library: message
  framing, the type descriptor sent ahead of the first value of a type, the
  omission of zero fields, and the size guard `tooBig`. The type id `tid` of
  `Payload` is assigned by the process-wide registry of gob and is a parameter.
-/

namespace DFS

/-- Equality of results is decidable when it is for errors and values. -/
instance decEqExcept {ε α : Type} [DecidableEq ε] [DecidableEq α] : DecidableEq (Except ε α)
  | .ok a, .ok b =>
    if h : a = b then isTrue (by rw [h]) else isFalse (fun h2 => h (Except.ok.inj h2))
  | .error a, .error b =>
    if h : a = b then isTrue (by rw [h]) else isFalse (fun h2 => h (Except.error.inj h2))
  | .ok _, .error _ => isFalse (fun h => by cases h)
  | .error _, .ok _ => isFalse (fun h => by cases h)

/-! ## Bytes and strings -/

abbrev Bytes := List UInt8

abbrev GoString := List UInt8

/-- The bytes of a Go string literal (UTF-8). -/
def str (s : String) : GoString := s.data.flatMap String.utf8EncodeChar

/-! ## encoding/gob: unsigned and signed integers -/

/-- Constant `uint64Size` of package gob. -/
def uint64Size : Nat := 8

/-- Constant `tooBig` of package gob, `(1 << 30) << (^uint(0) >> 62)`, on a 64-bit platform. -/
def tooBig : Nat := 2 ^ 33

/-- Constant `firstUserId` of package gob. -/
def firstUserId : Int := 64

/-- Type id of `[]byte` in gob. -/
def tBytes : Int := 5

/-- Type id of `string` in gob. -/
def tString : Int := 6

/-- Go `binary.BigEndian.PutUint64`: the eight bytes of `x`, most significant first. -/
def putUint64 (x : Nat) : Bytes :=
  [UInt8.ofNat (x / 2 ^ 56), UInt8.ofNat (x / 2 ^ 48), UInt8.ofNat (x / 2 ^ 40),
   UInt8.ofNat (x / 2 ^ 32), UInt8.ofNat (x / 2 ^ 24), UInt8.ofNat (x / 2 ^ 16),
   UInt8.ofNat (x / 2 ^ 8), UInt8.ofNat x]

/-- Go `bits.LeadingZeros64(x) >> 3`: the number of leading zero bytes of `x`. -/
def leadingZeroBytes (x : Nat) : Nat :=
  ((putUint64 x).takeWhile (fun b => b == 0)).length

/-- Go `encoderState.encodeUint`: one byte for values up to 0x7F, otherwise the
negated byte count followed by the big-endian bytes without leading zeros. -/
def encodeUint (x : Nat) : Bytes :=
  if x ≤ 0x7F then [UInt8.ofNat x]
  else
    let bc := leadingZeroBytes x
    UInt8.ofNat (bc + 256 - uint64Size) :: (putUint64 x).drop bc

/-- Go `encoderState.encodeInt`: the sign goes to bit 0, negative values are complemented. -/
def encodeInt (i : Int) : Bytes :=
  if i < 0 then encodeUint ((2 * (-i - 1).toNat + 1) % 2 ^ 64)
  else encodeUint ((2 * i.toNat) % 2 ^ 64)

/-- Errors of the gob decoder, classified coarsely. `outsideModel` marks input
that uses a part of gob this embedding does not cover (wire types other than
structs, remote fields that the local type does not have). -/
inductive DecErr
  | eof
  | unexpectedEOF
  | badUint
  | badCount
  | badData
  | duplicateType
  | extraData
  | badType
  | range
  | mismatch
  | outsideModel
  deriving DecidableEq, Repr

/-- Go `decodeUintReader` and `decoderState.decodeUint`: the value and the rest
of the input. `x<<8 | b` on `uint64` is `(x * 256 + b) % 2^64`. -/
def decodeUint : Bytes → Except DecErr (Nat × Bytes)
  | [] => .error .eof
  | b :: rest =>
    if b.toNat ≤ 0x7F then .ok (b.toNat, rest)
    else
      let n := 256 - b.toNat
      if n > uint64Size then .error .badUint
      else if rest.length < n then .error .unexpectedEOF
      else .ok ((rest.take n).foldl (fun x c => (x * 256 + c.toNat) % 2 ^ 64) 0, rest.drop n)

/-- Go `toInt`: undo `encodeInt` on a decoded unsigned value. -/
def toInt (x : Nat) : Int :=
  if x % 2 = 1 then -((x / 2 : Nat) : Int) - 1 else ((x / 2 : Nat) : Int)

/-- Go conversion of an `int64` to `typeId` (an `int32`). -/
def toInt32 (v : Int) : Int := (v + 2 ^ 31) % 2 ^ 32 - 2 ^ 31

/-! ## encoding/gob: wire types -/

/-- Go `gob.fieldType`. -/
structure FieldType where
  Name : GoString
  Id : Int
  deriving DecidableEq, Repr

/-- Go `gob.structType` with its embedded `CommonType` flattened. -/
structure StructType where
  Name : GoString
  Id : Int
  Field : List FieldType
  deriving DecidableEq, Repr

/-- Go `Payload` of `server.go`. -/
structure Payload where
  Key : GoString
  Data : Bytes
  deriving DecidableEq, Repr

/-- The wire type gob derives from `Payload`, under the type id `tid` that the
process-wide gob registry assigned to it. -/
def payloadWire (tid : Int) : StructType :=
  { Name := str "Payload", Id := tid,
    Field := [{ Name := str "Key", Id := tString }, { Name := str "Data", Id := tBytes }] }

/-! ## encoding/gob: encoder -/

/-- Go `encoderState.update` followed by the value of one struct field: the
field is left out when `send` is false (zero value); otherwise the distance to
the previous field number is written in front of it. Returns the bytes and the
new field number. -/
def encField (fieldnum : Int) (idx : Int) (send : Bool) (val : Bytes) : Bytes × Int :=
  if send then (encodeUint (idx - fieldnum).toNat ++ val, idx) else ([], fieldnum)

/-- Go `encString` and `encUint8Array` after `update`: length, then the bytes. -/
def encBytes (s : Bytes) : Bytes := encodeUint s.length ++ s

/-- Go `encodeStruct` on a `CommonType {Name, Id}` or a `fieldType {Name, Id}`. -/
def encNameId (name : GoString) (id : Int) : Bytes :=
  let f0 := encField (-1) 0 (decide (name.length > 0)) (encBytes name)
  let f1 := encField f0.2 1 (decide (id ≠ 0)) (encodeInt id)
  f0.1 ++ f1.1 ++ encodeUint 0

/-- Go `encodeArray` on `[]fieldType`: the count, then every element as a struct. -/
def encFieldSlice (fs : List FieldType) : Bytes :=
  encodeUint fs.length ++ fs.flatMap (fun f => encNameId f.Name f.Id)

/-- Go `encodeStruct` on a `structType`: field 0 is the embedded `CommonType`
(a struct, always sent), field 1 the `Field` slice (left out when empty). -/
def encStructType (st : StructType) : Bytes :=
  let f0 := encField (-1) 0 true (encNameId st.Name st.Id)
  let f1 := encField f0.2 1 (decide (st.Field.length > 0)) (encFieldSlice st.Field)
  f0.1 ++ f1.1 ++ encodeUint 0

/-- Go `encodeStruct` on the `wireType` of a struct: only `StructT` (field 2)
is set, the nil pointers before and after it are left out. -/
def encWireType (st : StructType) : Bytes :=
  (encField (-1) 2 true (encStructType st)).1 ++ encodeUint 0

/-- Go `encodeStruct` on a `Payload`: `Key` is field 0 and `Data` field 1, each
left out when empty. -/
def encPayload (p : Payload) : Bytes :=
  let f0 := encField (-1) 0 (decide (p.Key.length > 0)) (encBytes p.Key)
  let f1 := encField f0.2 1 (decide (p.Data.length > 0)) (encBytes p.Data)
  f0.1 ++ f1.1 ++ encodeUint 0

/-- The body of the type-descriptor message `sendActualType` builds: the
negated type id, then the wire type. -/
def typeDefBody (tid : Int) : Bytes := encodeInt (-tid) ++ encWireType (payloadWire tid)

/-- The body of the value message `EncodeValue` builds: the type id
(`sendTypeId`), then the struct. -/
def valueBody (tid : Int) (p : Payload) : Bytes := encodeInt tid ++ encPayload p

/-- The bytes `writeMessage` hands to the writer for a body that passed its size check. -/
def frame (body : Bytes) : Bytes := encodeUint body.length ++ body

/-! ## encoding/gob: decoder

The decoder of `gob.NewDecoder(bytes.NewReader(b)).Decode(&p)` for a local
`Payload`, on input whose type descriptors define struct types and whose
remote fields are fields of `Payload`; other input is answered `outsideModel`. -/

/-- Go `decoderState.getLength` followed by taking that many bytes, as in
`decString` and `decUint8Slice`. -/
def decBytes (buf : Bytes) : Except DecErr (Bytes × Bytes) :=
  match decodeUint buf with
  | .error e => .error e
  | .ok (n, rest) =>
    if n ≥ 2 ^ 63 ∨ rest.length < n ∨ tooBig ≤ n then .error .badData
    else .ok (rest.take n, rest.drop n)

/-- Go `decInt32`, the decoding of a `typeId` field, with its overflow check. -/
def decInt32 (buf : Bytes) : Except DecErr (Int × Bytes) :=
  match decodeUint buf with
  | .error e => .error e
  | .ok (x, rest) =>
    if toInt x < -(2 ^ 31) ∨ 2 ^ 31 - 1 < toInt x then .error .badData
    else .ok (toInt x, rest)

/-- Go `Decoder.decodeStruct`: read field deltas until the terminator (or the
end of the buffer) and run the operation of each field met. `nfields` is the
number of instructions of the engine, `op` the operation per field number. The
first argument bounds the iterations; every iteration consumes a byte, so the
length of the buffer plus one suffices. -/
def decodeStructLoop {α : Type} (nfields : Nat)
    (op : Nat → α → Bytes → Except DecErr (α × Bytes)) :
    Nat → Int → α → Bytes → Except DecErr (α × Bytes)
  | 0, _, _, _ => .error .outsideModel
  | fuel + 1, fieldnum, v, buf =>
    if buf.length = 0 then .ok (v, buf)
    else
      match decodeUint buf with
      | .error e => .error e
      | .ok (delta, rest) =>
        if delta ≥ 2 ^ 63 then .error .badData
        else if delta = 0 then .ok (v, rest)
        else if fieldnum ≥ (nfields : Int) - (delta : Int) then .error .range
        else
          match op (fieldnum + delta).toNat v rest with
          | .error e => .error e
          | .ok (v1, rest1) => decodeStructLoop nfields op fuel (fieldnum + delta) v1 rest1

/-- Go `Decoder.decodeStruct` with a fresh state (`fieldnum = -1`). -/
def decodeStruct {α : Type} (nfields : Nat)
    (op : Nat → α → Bytes → Except DecErr (α × Bytes)) (v : α) (buf : Bytes) :
    Except DecErr (α × Bytes) :=
  decodeStructLoop nfields op (buf.length + 1) (-1) v buf

/-- The decoding operations of a `{Name string; Id typeId}` struct
(`CommonType` and `fieldType`). -/
def nameIdOp : Nat → GoString × Int → Bytes → Except DecErr ((GoString × Int) × Bytes)
  | 0, v, buf =>
    match decBytes buf with
    | .error e => .error e
    | .ok (s, rest) => .ok ((s, v.2), rest)
  | _, v, buf =>
    match decInt32 buf with
    | .error e => .error e
    | .ok (i, rest) => .ok ((v.1, i), rest)

/-- Decoding of a `CommonType` or `fieldType` value into its zero value. -/
def decNameId (buf : Bytes) : Except DecErr ((GoString × Int) × Bytes) :=
  decodeStruct 2 nameIdOp ([], 0) buf

/-- Size in bytes of a `fieldType` value on a 64-bit platform, used by the
size check of `decodeSlice`. -/
def fieldTypeSize : Nat := 24

/-- Go `Decoder.decodeArrayHelper` on `[]fieldType`: `n` elements, each a struct. -/
def decFieldElems : Nat → Bytes → Except DecErr (List FieldType × Bytes)
  | 0, buf => .ok ([], buf)
  | n + 1, buf =>
    if buf.length = 0 then .error .badData
    else
      match decNameId buf with
      | .error e => .error e
      | .ok (f, rest) =>
        match decFieldElems n rest with
        | .error e => .error e
        | .ok (fs, rest1) => .ok ({ Name := f.1, Id := f.2 } :: fs, rest1)

/-- Go `Decoder.decodeSlice` on `[]fieldType`: the count with its size check,
then the elements. -/
def decFieldSlice (buf : Bytes) : Except DecErr (List FieldType × Bytes) :=
  match decodeUint buf with
  | .error e => .error e
  | .ok (u, rest) =>
    if u ≥ 2 ^ 63 ∨ u * fieldTypeSize > tooBig then .error .badData
    else decFieldElems u rest

/-- The decoding operations of a `structType`: field 0 the embedded
`CommonType`, field 1 the `Field` slice. -/
def structTypeOp : Nat → StructType → Bytes → Except DecErr (StructType × Bytes)
  | 0, st, buf =>
    match decNameId buf with
    | .error e => .error e
    | .ok (c, rest) => .ok ({ st with Name := c.1, Id := c.2 }, rest)
  | _, st, buf =>
    match decFieldSlice buf with
    | .error e => .error e
    | .ok (fs, rest) => .ok ({ st with Field := fs }, rest)

/-- The decoding operations of a `wireType` (seven pointer fields): `StructT`
is field 2; the other kinds of wire type are outside this model. -/
def wireTypeOp : Nat → Option StructType → Bytes → Except DecErr (Option StructType × Bytes)
  | 2, _, buf =>
    match decodeStruct 2 structTypeOp { Name := [], Id := 0, Field := [] } buf with
    | .error e => .error e
    | .ok (st, rest) => .ok (some st, rest)
  | _, _, _ => .error .outsideModel

/-- Decoding of a `wireType` value, `decodeValue(tWireType, wire)` in `recvType`. -/
def decWireType (buf : Bytes) : Except DecErr (Option StructType × Bytes) :=
  decodeStruct 7 wireTypeOp none buf

/-- The local field of `Payload` a remote field is decoded into. -/
inductive FieldOp
  | key
  | data
  deriving DecidableEq, Repr

/-- Go `Decoder.compileDec` for the local type `Payload`: every remote field
is matched by name and its type id checked with `compatibleType`. -/
def compileDec : List FieldType → Except DecErr (List FieldOp)
  | [] => .ok []
  | f :: fs =>
    if f.Name = [] then .error .mismatch
    else if f.Name = str "Key" then
      if f.Id ≠ tString then .error .mismatch
      else
        match compileDec fs with
        | .error e => .error e
        | .ok ops => .ok (FieldOp.key :: ops)
    else if f.Name = str "Data" then
      if f.Id ≠ tBytes then .error .mismatch
      else
        match compileDec fs with
        | .error e => .error e
        | .ok ops => .ok (FieldOp.data :: ops)
    else .error .outsideModel

/-- The decoding operations of a compiled engine on a `Payload`. -/
def payloadOp (ops : List FieldOp) (i : Nat) (p : Payload) (buf : Bytes) :
    Except DecErr (Payload × Bytes) :=
  match ops.get? i with
  | none => .error .range
  | some FieldOp.key =>
    match decBytes buf with
    | .error e => .error e
    | .ok (s, rest) => .ok ({ p with Key := s }, rest)
  | some FieldOp.data =>
    match decBytes buf with
    | .error e => .error e
    | .ok (s, rest) => .ok ({ p with Data := s }, rest)

/-- Go `Decoder.recvMessage`: the byte count, its sanity check, and the
message body; returns the body and the rest of the input. -/
def recvMessage (first : Bool) (inp : Bytes) : Except DecErr (Bytes × Bytes) :=
  match decodeUint inp with
  | .error .eof => .error (if first then .eof else .unexpectedEOF)
  | .error e => .error e
  | .ok (n, rest) =>
    if n ≥ tooBig then .error .badCount
    else if rest.length < n then .error .unexpectedEOF
    else .ok (rest.take n, rest.drop n)

/-- Go `Decoder.decodeTypeSequence` followed by `decodeValue` into a zero
`Payload`: receive messages, record the struct types they define, and decode
the first value message with the engine compiled for its type id. `types` is
the table `dec.wireType`. The first argument bounds the number of messages;
every message consumes a byte of the input. -/
def decodeMessages : Nat → Bool → List (Int × StructType) → Bytes → Except DecErr Payload
  | 0, _, _, _ => .error .outsideModel
  | fuel + 1, first, types, inp =>
    match recvMessage first inp with
    | .error e => .error e
    | .ok (buf, rest) =>
      match decodeUint buf with
      | .error e => .error e
      | .ok (x, buf1) =>
        let id := toInt32 (toInt x)
        if id ≥ 0 then
          match types.lookup id with
          | none => .error .badType
          | some st =>
            match compileDec st.Field with
            | .error e => .error e
            | .ok ops =>
              match decodeStruct ops.length (payloadOp ops) { Key := [], Data := [] } buf1 with
              | .error e => .error e
              | .ok (p, _) => .ok p
        else if -id < firstUserId ∨ (types.lookup (-id)).isSome then .error .duplicateType
        else
          match decWireType buf1 with
          | .error e => .error e
          | .ok (none, _) => .error .outsideModel
          | .ok (some st, buf2) =>
            if buf2.length > 0 then .error .extraData
            else decodeMessages fuel false ((-id, st) :: types) rest

/-- The decoding done in `loop`:
`gob.NewDecoder(bytes.NewReader(msg.Payload)).Decode(&p)` with `var p Payload`. -/
def gobDecode (inp : Bytes) : Except DecErr Payload :=
  decodeMessages (inp.length + 1) true [] inp

/-! ## Collaborators -/

/-- Go `error` values that reach the caller of `StoreData`. -/
inductive GoError
  | shortWrite
  | gobTooBig
  | other (code : Nat)
  deriving DecidableEq, Repr

/-- Modelled from the spec: the peer handle `p2p.Peer` of package `p2p`, "an
object with the capability set {write bytes to the peer, report the peer's
identity, be closed}". `addr` is what `RemoteAddr().String()` reports, `conn`
tells two handle objects apart; the write capability is `Env.peerWrite`. -/
structure Peer where
  addr : GoString
  conn : Nat
  deriving DecidableEq, Repr

/-- Modelled from the spec: the inbound message `p2p.RPC` of package `p2p`,
"{payload bytes, source}". -/
structure RPC where
  From : GoString
  Payload : Bytes
  deriving DecidableEq, Repr

/-- What the server does to the outside and to its shared state, in program order. -/
inductive Event
  | lock
  | unlock
  | mapAssign (k : GoString) (p : Peer)
  | mapRange
  | storeWrite (key : GoString) (content : Bytes)
  | peerWrite (p : Peer) (b : Bytes)
  | println (b : Bytes)
  | logConnected (addr : GoString)
  | lineError
  | logDecodeErr (e : DecErr)
  | printData (b : Bytes)
  | logStopped
  | close
  | logDial (addr : GoString)
  | dial (addr : GoString)
  | logDialErr (e : GoError)
  deriving DecidableEq, Repr

/-- The collaborators as oracles over the history of events so far.
`storeWrite hist key content` is `Store.Write(key, reader)` on a reader holding
`content`: how many bytes it read and what it returned. `peerWrite hist p b` is
`p.Write(b)`: the count and the error. `dial hist addr` is `Transport.Dial(addr)`. -/
structure Env where
  storeWrite : List Event → GoString → Bytes → Nat × Option GoError
  peerWrite : List Event → Peer → Bytes → Nat × Option GoError
  dial : List Event → GoString → Option GoError

/-! ## FileServer -/

/-- Go `FileServer`: the bootstrap addresses of its options, the `peers` map
(its entries in the order `range` visits them) and whether `quitch` is closed. -/
structure FileServer where
  BootstrapNodes : List GoString
  peers : List (GoString × Peer)
  quitClosed : Bool
  deriving DecidableEq, Repr

/-- Go `io.MultiWriter(ws...).Write(b)`: write to each writer in turn, stop at
the first error or short count. -/
def multiWrite (env : Env) : List Peer → List Event → Bytes → List Event × Option GoError
  | [], _, _ => ([], none)
  | w :: ws, hist, b =>
    let r := env.peerWrite hist w b
    match r.2 with
    | some e => ([Event.peerWrite w b], some e)
    | none =>
      if r.1 ≠ b.length then ([Event.peerWrite w b], some GoError.shortWrite)
      else
        let rest := multiWrite env ws (hist ++ [Event.peerWrite w b]) b
        (Event.peerWrite w b :: rest.1, rest.2)

/-- Go `Encoder.writeMessage` on the multi-writer: refuse a body of `tooBig`
bytes or more, otherwise one `Write` of the count followed by the body. -/
def writeMessage (env : Env) (ws : List Peer) (hist : List Event) (body : Bytes) :
    List Event × Option GoError :=
  if body.length ≥ tooBig then ([], some GoError.gobTooBig)
  else multiWrite env ws hist (frame body)

/-- Go `gob.NewEncoder(mw).Encode(p)` on a fresh encoder: the type-descriptor
message, then (unless that failed) the value message. -/
def gobEncode (env : Env) (tid : Int) (ws : List Peer) (hist : List Event) (p : Payload) :
    List Event × Option GoError :=
  let m1 := writeMessage env ws hist (typeDefBody tid)
  match m1.2 with
  | some e => (m1.1, some e)
  | none =>
    let m2 := writeMessage env ws (hist ++ m1.1) (valueBody tid p)
    (m1.1 ++ m2.1, m2.2)

/-- Go `FileServer.broadcast`: range over `s.peers` collecting the writers,
then encode the payload onto their multi-writer. -/
def broadcast (env : Env) (tid : Int) (s : FileServer) (hist : List Event) (p : Payload) :
    List Event × Option GoError :=
  let ws := s.peers.map Prod.snd
  let r := gobEncode env tid ws (hist ++ [Event.mapRange]) p
  (Event.mapRange :: r.1, r.2)

/-- Go `FileServer.StoreData` on a reader holding `r`: the store reads through
the tee, so `buf` holds what the store read. -/
def StoreData (env : Env) (tid : Int) (s : FileServer) (hist : List Event)
    (key : GoString) (r : Bytes) : List Event × Option GoError :=
  let w := env.storeWrite hist key r
  let buf := r.take w.1
  match w.2 with
  | some err => ([Event.storeWrite key r], some err)
  | none =>
    let b := broadcast env tid s (hist ++ [Event.storeWrite key r, Event.println buf])
      { Key := key, Data := buf }
    (Event.storeWrite key r :: Event.println buf :: b.1, b.2)

/-- Go `s.peers[k] = p` on the map. -/
def mapAssign (m : List (GoString × Peer)) (k : GoString) (p : Peer) : List (GoString × Peer) :=
  m.filter (fun e => e.1 ≠ k) ++ [(k, p)]

/-- Go `FileServer.OnPeer`. -/
def OnPeer (s : FileServer) (p : Peer) : FileServer × List Event × Option GoError :=
  ({ s with peers := mapAssign s.peers p.addr p },
   [Event.lock, Event.mapAssign p.addr p, Event.logConnected p.addr, Event.unlock],
   none)

/-- Go `FileServer.Stop`: `close(s.quitch)`; closing a closed channel panics (`none`). -/
def Stop (s : FileServer) : Option FileServer :=
  if s.quitClosed then none else some { s with quitClosed := true }

/-- Whether every access to the `peers` map in a trace happens while
`peerLock` is held; the first argument tells whether it is held at the start. -/
def lockOK : Bool → List Event → Bool
  | _, [] => true
  | _, Event.lock :: es => lockOK true es
  | _, Event.unlock :: es => lockOK false es
  | held, Event.mapAssign _ _ :: es => held && lockOK held es
  | held, Event.mapRange :: es => held && lockOK held es
  | held, _ :: es => lockOK held es

/-! ## The control loop -/

/-- The message case of the `select` in `loop`; `decode` stands for
`gob.NewDecoder(bytes.NewReader(msg.Payload)).Decode(&p)` and returns the
payload as left by the decoder together with its error. -/
def handleMessage (decode : Bytes → Payload × Option DecErr) (m : RPC) : List Event :=
  let r := decode m.Payload
  (match r.2 with
   | some e => [Event.lineError, Event.logDecodeErr e]
   | none => []) ++ [Event.printData r.1.Data]

/-- What happens around a running `loop`: another goroutine calls `Stop`, or
the loop evaluates its `select` with `msg` ready on `Consume()` (if any);
`pickQuit` is the choice of the runtime when both cases are ready. -/
inductive Action
  | stop
  | select (msg : Option RPC) (pickQuit : Bool)
  deriving DecidableEq, Repr

/-- A server whose `loop` was started: has the loop returned, has the process
panicked, and the events of the loop so far. -/
structure Run where
  srv : FileServer
  returned : Bool
  crashed : Bool
  events : List Event
  deriving DecidableEq, Repr

/-- The `quitch` case of the `select`: return, running the deferred function. -/
def quitCase (r : Run) : Run :=
  { r with returned := true, events := r.events ++ [Event.logStopped, Event.close] }

/-- One action on a running server. -/
def step (decode : Bytes → Payload × Option DecErr) (r : Run) : Action → Run
  | Action.stop =>
    if r.crashed then r
    else
      match Stop r.srv with
      | none => { r with crashed := true }
      | some s => { r with srv := s }
  | Action.select msg pickQuit =>
    if r.crashed || r.returned then r
    else
      match msg, r.srv.quitClosed with
      | none, false => r
      | some m, false => { r with events := r.events ++ handleMessage decode m }
      | none, true => quitCase r
      | some m, true =>
        if pickQuit then quitCase r
        else { r with events := r.events ++ handleMessage decode m }

/-- Go `FileServer.loop` on a running server, driven by what happens around
it: each `select` evaluation handles a message or takes the quit case, as
`step` tells; `Stop` may be called in between. -/
def loop (decode : Bytes → Payload × Option DecErr) (r : Run) (acts : List Action) : Run :=
  acts.foldl (step decode) r

/-- The server at the moment `loop` is entered. -/
def startLoop (s : FileServer) : Run :=
  { srv := s, returned := false, crashed := false, events := [] }

/-- The decoder of `gobDecode` in the shape `loop` uses it; after an error the
payload is reported as its zero value. -/
def decodeOrZero (b : Bytes) : Payload × Option DecErr :=
  match gobDecode b with
  | .ok p => (p, none)
  | .error e => ({ Key := [], Data := [] }, some e)

/-! ## Bootstrap -/

/-- The `for` loop of `bootstrapNetwork` over the remaining addresses: an
empty address is skipped (`continue`), for any other a goroutine is started
with that address as its argument. Returns the arguments of the goroutines
started, in order. -/
def bootstrapLoop : List GoString → List GoString
  | [] => []
  | addr :: rest =>
    if addr.length = 0 then bootstrapLoop rest
    else addr :: bootstrapLoop rest

/-- Go `FileServer.bootstrapNetwork`: the addresses for which a goroutine is
started, in order, and the returned error (always `nil`). -/
def bootstrapNetwork (s : FileServer) : List GoString × Option GoError :=
  (bootstrapLoop s.BootstrapNodes, none)

/-- The goroutine `bootstrapNetwork` starts for `addr`. -/
def dialTask (env : Env) (hist : List Event) (addr : GoString) : List Event :=
  match env.dial (hist ++ [Event.logDial addr]) addr with
  | some e => [Event.logDial addr, Event.dial addr, Event.logDialErr e]
  | none => [Event.logDial addr, Event.dial addr]

/-- The started goroutines run to completion one after the other in the order given. -/
def runTasks (env : Env) : List Event → List GoString → List Event
  | _, [] => []
  | hist, a :: rest =>
    let evs := dialTask env hist a
    evs ++ runTasks env (hist ++ evs) rest

/-- The peers a trace wrote to, with what was written, in order. -/
def peerWrites : List Event → List (Peer × Bytes)
  | [] => []
  | Event.peerWrite p b :: es => (p, b) :: peerWrites es
  | _ :: es => peerWrites es

/-- The byte chunks a trace wrote to peer `p`, in order. -/
def writesTo (p : Peer) (evs : List Event) : List Bytes :=
  ((peerWrites evs).filter (fun w => w.1 = p)).map Prod.snd

/-- The addresses a trace dialed, in order. -/
def dials : List Event → List GoString
  | [] => []
  | Event.dial a :: es => a :: dials es
  | _ :: es => dials es

/-- How many times a trace invoked `Transport.Close`. -/
def closeCount : List Event → Nat
  | [] => 0
  | Event.close :: es => closeCount es + 1
  | _ :: es => closeCount es

/-- One evaluation of the `select` of `loop`, given what is ready on
`Consume()` and the choice of the runtime. -/
def selectAct (x : Option RPC × Bool) : Action := Action.select x.1 x.2

/-- Every write to a peer succeeds: it takes all the bytes and returns no error. -/
def AllWritesSucceed (env : Env) : Prop :=
  ∀ (hist : List Event) (p : Peer) (b : Bytes), env.peerWrite hist p b = (b.length, none)

/-- Collaborators that never fail: the store reads its whole stream, every
peer takes every byte, every dial succeeds. -/
def allOK : Env :=
  { storeWrite := fun _ _ content => (content.length, none),
    peerWrite := fun _ _ b => (b.length, none),
    dial := fun _ _ => none }

/-- What `gob.NewEncoder(&buf).Encode(p)` leaves in a `bytes.Buffer` and what
it returns: `gobEncode` on a single writer that never fails. -/
def gobEncodeBuffer (tid : Int) (p : Payload) : Bytes × Option GoError :=
  let r := gobEncode allOK tid [{ addr := [], conn := 0 }] [] p
  (((peerWrites r.1).map Prod.snd).flatten, r.2)

/-- The accumulation step of `decodeUint`, `x<<8 | b` on `uint64`. -/
def accByte (x : Nat) (c : UInt8) : Nat := (x * 256 + c.toNat) % 2 ^ 64

/-- A `{Name, Id}` pair that gob sends in full: neither field is a zero value,
and the id is an `int32`. -/
def ValidNameId (name : GoString) (id : Int) : Prop :=
  0 < name.length ∧ name.length < tooBig ∧ id ≠ 0 ∧ -(2 ^ 31) ≤ id ∧ id < 2 ^ 31

/-- A struct type whose descriptor gob sends in full and whose decoding passes
the size check of `decodeSlice`. -/
def ValidStructType (st : StructType) : Prop :=
  ValidNameId st.Name st.Id ∧ 0 < st.Field.length ∧
  st.Field.length * fieldTypeSize ≤ tooBig ∧ ∀ f ∈ st.Field, ValidNameId f.Name f.Id

/-- What a run of the loop preserves: `Close` was invoked once if the loop
returned and not at all otherwise, and the loop returned only with `quitch` closed. -/
def RunInv (r : Run) : Prop :=
  closeCount r.events = (if r.returned then 1 else 0) ∧
  (r.returned = true → r.srv.quitClosed = true)

/-! ## Concrete scenarios -/

/-- Peer `A` of the scenarios. -/
def peerA : Peer := { addr := str ":3000", conn := 1 }

/-- Peer `B` of the scenarios. -/
def peerB : Peer := { addr := str ":4000", conn := 2 }

/-- Peer `C` of the scenarios. -/
def peerC : Peer := { addr := str ":5000", conn := 3 }

/-- A server just created by `NewFileServer`, with four bootstrap entries, one
of them empty and one repeated. -/
def newServer : FileServer :=
  { BootstrapNodes := [str ":4000", [], str ":5000", str ":4000"], peers := [],
    quitClosed := false }

/-- The server after `OnPeer(A)` and `OnPeer(B)`. -/
def serverAB : FileServer := (OnPeer (OnPeer newServer peerA).1 peerB).1

/-- The server after `OnPeer(A)`, `OnPeer(B)` and `OnPeer(C)`. -/
def serverABC : FileServer := (OnPeer serverAB peerC).1

/-- Collaborators whose store refuses every write without reading. -/
def storeFails : Env :=
  { allOK with storeWrite := fun _ _ _ => (0, some (GoError.other 1)) }

/-- Collaborators where every write to peer `B` fails. -/
def peerBFails : Env :=
  { allOK with
    peerWrite := fun _ p b => if p = peerB then (0, some (GoError.other 7)) else (b.length, none) }

/-- A payload of `2^33` zero bytes under an empty key. -/
def hugePayload : Payload := { Key := [], Data := List.replicate (2 ^ 33) 0 }

/-! # Theorems -/

/-! ## encoding/gob: sizes -/

theorem putUint64_length (x : Nat) : (putUint64 x).length = 8 := rfl

theorem encodeUint_length_le (x : Nat) : (encodeUint x).length ≤ 9 := by
  unfold encodeUint
  split
  · simp
  · simp only [List.length_cons, List.length_drop, putUint64_length]
    omega

theorem encodeUint_length_pos (x : Nat) : 1 ≤ (encodeUint x).length := by
  unfold encodeUint
  split <;> simp

theorem encodeInt_length_le (i : Int) : (encodeInt i).length ≤ 9 := by
  unfold encodeInt
  split <;> exact encodeUint_length_le _

theorem encField_length_le (f idx : Int) (send : Bool) (val : Bytes) :
    (encField f idx send val).1.length ≤ 9 + val.length := by
  unfold encField
  split
  · have := encodeUint_length_le (idx - f).toNat
    simp only [List.length_append]
    omega
  · simp

theorem encNameId_length_le (name : GoString) (id : Int) :
    (encNameId name id).length ≤ 45 + name.length := by
  unfold encNameId
  have h0 := encField_length_le (-1) 0 (decide (name.length > 0)) (encBytes name)
  have h1 := encField_length_le (encField (-1) 0 (decide (name.length > 0)) (encBytes name)).2 1
    (decide (id ≠ 0)) (encodeInt id)
  have h2 := encodeUint_length_le 0
  have h3 := encodeInt_length_le id
  have h4 := encodeUint_length_le name.length
  simp only [encBytes, List.length_append] at h0 h1 ⊢
  omega

theorem typeDefBody_length_lt (tid : Int) : (typeDefBody tid).length < tooBig := by
  have h0 := encodeInt_length_le (-tid)
  have h1 := encNameId_length_le (str "Payload") tid
  have h2 := encNameId_length_le (str "Key") tString
  have h3 := encNameId_length_le (str "Data") tBytes
  have e1 : (str "Payload").length = 7 := by decide
  have e2 : (str "Key").length = 3 := by decide
  have e3 : (str "Data").length = 4 := by decide
  have h4 := encodeUint_length_le 0
  have h5 := encodeUint_length_le 1
  have h6 := encodeUint_length_le 2
  have h7 := encodeUint_length_le 3
  have h8 := encodeUint_length_le (Int.toNat 3)
  simp only [typeDefBody, encWireType, encStructType, encField, encFieldSlice, payloadWire,
    List.length_append, List.flatMap_cons, List.flatMap_nil, List.length_cons, List.length_nil,
    if_true, decide_True, tooBig] at *
  norm_num at *
  omega

/-! ## encoding/gob: integers round trip -/

theorem uint8_toNat_ofNat (n : Nat) : (UInt8.ofNat n).toNat = n % 256 := by
  simp [UInt8.toNat, UInt8.ofNat, Fin.ofNat]

theorem foldl_putUint64 (x : Nat) (hx : x < 2 ^ 64) :
    (putUint64 x).foldl accByte 0 = x := by
  simp only [putUint64, List.foldl, accByte, uint8_toNat_ofNat]
  omega

theorem foldl_dropWhile_zero (l : Bytes) :
    (l.dropWhile (fun b => b == 0)).foldl accByte 0 = l.foldl accByte 0 := by
  induction l with
  | nil => rfl
  | cons a l ih =>
    by_cases ha : a = 0
    · subst ha
      simp only [List.dropWhile_cons, List.foldl_cons]
      have : accByte 0 (0 : UInt8) = 0 := by decide
      rw [this]
      simpa using ih
    · have : (a == 0) = false := by simpa using ha
      simp [List.dropWhile_cons, this]

theorem drop_takeWhile_length (l : Bytes) (q : UInt8 → Bool) :
    l.drop (l.takeWhile q).length = l.dropWhile q := by
  induction l with
  | nil => rfl
  | cons a l ih =>
    by_cases ha : q a = true
    · simp [List.takeWhile_cons, List.dropWhile_cons, ha, ih]
    · simp [List.takeWhile_cons, List.dropWhile_cons, ha]

theorem leadingZeroBytes_le (x : Nat) : leadingZeroBytes x ≤ 8 := by
  unfold leadingZeroBytes
  have := (List.takeWhile_sublist (l := putUint64 x) (fun b : UInt8 => b == 0)).length_le
  rw [putUint64_length] at this
  exact this

theorem leadingZeroBytes_lt (x : Nat) (hx : x < 2 ^ 64) (hpos : 0 < x) :
    leadingZeroBytes x < 8 := by
  have hle := leadingZeroBytes_le x
  rcases Nat.lt_or_eq_of_le hle with h | h
  · exact h
  · exfalso
    have h1 := foldl_putUint64 x hx
    rw [← foldl_dropWhile_zero, ← drop_takeWhile_length] at h1
    have h2 : (putUint64 x).drop ((putUint64 x).takeWhile (fun b => b == 0)).length = [] := by
      apply List.drop_eq_nil_of_le
      rw [putUint64_length]
      unfold leadingZeroBytes at h
      omega
    rw [h2] at h1
    simp at h1
    omega

theorem decodeUint_encodeUint (x : Nat) (hx : x < 2 ^ 64) (rest : Bytes) :
    decodeUint (encodeUint x ++ rest) = .ok (x, rest) := by
  unfold encodeUint
  split
  · rename_i h
    have h1 : (UInt8.ofNat x).toNat = x := by rw [uint8_toNat_ofNat]; omega
    simp only [List.cons_append, List.nil_append, decodeUint, h1]
    rw [if_pos h]
  · rename_i h
    have hlt := leadingZeroBytes_lt x hx (by omega)
    have h1 : (UInt8.ofNat (leadingZeroBytes x + 256 - uint64Size)).toNat
        = leadingZeroBytes x + 248 := by
      rw [uint8_toNat_ofNat]; simp only [uint64Size]; omega
    have hlen : ((putUint64 x).drop (leadingZeroBytes x)).length = 8 - leadingZeroBytes x := by
      rw [List.length_drop, putUint64_length]
    have hn : 256 - (leadingZeroBytes x + 248) = 8 - leadingZeroBytes x := by omega
    have hval : ((putUint64 x).drop (leadingZeroBytes x)).foldl accByte 0 = x := by
      have := foldl_putUint64 x hx
      rw [← foldl_dropWhile_zero, ← drop_takeWhile_length] at this
      exact this
    simp only [List.cons_append, decodeUint, h1, hn]
    rw [if_neg (by omega), if_neg (by simp only [uint64Size]; omega),
      if_neg (by rw [List.length_append, hlen]; omega)]
    have ht : List.take (8 - leadingZeroBytes x) ((putUint64 x).drop (leadingZeroBytes x) ++ rest)
        = (putUint64 x).drop (leadingZeroBytes x) := by
      rw [List.take_append_of_le_length (by rw [hlen])]
      exact List.take_of_length_le (by rw [hlen])
    have hd : List.drop (8 - leadingZeroBytes x) ((putUint64 x).drop (leadingZeroBytes x) ++ rest)
        = rest := by
      rw [List.drop_append_of_le_length (by rw [hlen])]
      rw [List.drop_of_length_le (by rw [hlen])]
      rfl
    rw [ht, hd]
    have : List.foldl (fun x c => (x * 256 + c.toNat) % 2 ^ 64) 0
        ((putUint64 x).drop (leadingZeroBytes x)) = x := hval
    rw [this]

theorem decodeUint_encodeInt (i : Int) (hlo : -(2 ^ 63) ≤ i) (hhi : i < 2 ^ 63) (rest : Bytes) :
    ∃ x : Nat, decodeUint (encodeInt i ++ rest) = .ok (x, rest) ∧ toInt x = i := by
  unfold encodeInt
  split
  · rename_i h
    have hb : 2 * (-i - 1).toNat + 1 < 2 ^ 64 := by omega
    refine ⟨2 * (-i - 1).toNat + 1, ?_, ?_⟩
    · rw [Nat.mod_eq_of_lt hb]
      exact decodeUint_encodeUint _ hb rest
    · unfold toInt
      rw [if_pos (by omega)]
      omega
  · rename_i h
    have hb : 2 * i.toNat < 2 ^ 64 := by omega
    refine ⟨2 * i.toNat, ?_, ?_⟩
    · rw [Nat.mod_eq_of_lt hb]
      exact decodeUint_encodeUint _ hb rest
    · unfold toInt
      rw [if_neg (by omega)]
      omega

theorem decBytes_encBytes (s rest : Bytes) (hs : s.length < tooBig) :
    decBytes (encBytes s ++ rest) = .ok (s, rest) := by
  have hb : s.length < 2 ^ 64 := by simp only [tooBig] at hs; omega
  unfold decBytes encBytes
  rw [List.append_assoc, decodeUint_encodeUint _ hb]
  simp only
  rw [if_neg]
  · rw [List.take_left, List.drop_left]
  · simp only [tooBig] at hs ⊢
    simp only [List.length_append]
    omega

theorem decInt32_encodeInt (i : Int) (hlo : -(2 ^ 31) ≤ i) (hhi : i < 2 ^ 31) (rest : Bytes) :
    decInt32 (encodeInt i ++ rest) = .ok (i, rest) := by
  obtain ⟨x, h1, h2⟩ := decodeUint_encodeInt i (by omega) (by omega) rest
  unfold decInt32
  rw [h1]
  simp only [h2]
  rw [if_neg (by omega)]

/-- One round of `decodeStructLoop`: a non-zero delta selects a field whose
operation succeeds. -/
theorem decodeStructLoop_field {α : Type} (nfields : Nat)
    (op : Nat → α → Bytes → Except DecErr (α × Bytes)) (fuel : Nat) (fieldnum : Int)
    (v v1 : α) (delta : Nat) (val rest : Bytes) (idx : Nat)
    (hd0 : 0 < delta) (hd1 : delta < 2 ^ 63)
    (hidx : fieldnum + delta = (idx : Int)) (hn : idx < nfields)
    (hop : op idx v (val ++ rest) = .ok (v1, rest)) :
    decodeStructLoop nfields op (fuel + 1) fieldnum v (encodeUint delta ++ val ++ rest)
      = decodeStructLoop nfields op fuel (idx : Int) v1 rest := by
  have hne : ¬ (encodeUint delta ++ val ++ rest).length = 0 := by
    have := encodeUint_length_pos delta
    simp only [List.length_append]
    omega
  have hdec : decodeUint (encodeUint delta ++ val ++ rest) = .ok (delta, val ++ rest) := by
    rw [List.append_assoc]
    exact decodeUint_encodeUint delta (by omega) _
  rw [decodeStructLoop, if_neg hne, hdec]
  simp only
  rw [if_neg (by omega), if_neg (by omega), if_neg (by omega)]
  have : (fieldnum + (delta : Int)).toNat = idx := by omega
  rw [this, hop]
  simp only [hidx]

/-- The last round of `decodeStructLoop`: the zero delta ends the struct. -/
theorem decodeStructLoop_end {α : Type} (nfields : Nat)
    (op : Nat → α → Bytes → Except DecErr (α × Bytes)) (fuel : Nat) (fieldnum : Int)
    (v : α) (rest : Bytes) :
    decodeStructLoop nfields op (fuel + 1) fieldnum v (encodeUint 0 ++ rest) = .ok (v, rest) := by
  have h0 : encodeUint 0 = [0] := by decide
  rw [h0]
  simp [decodeStructLoop, decodeUint]

/-! ## encoding/gob: wire types and payloads round trip -/

theorem encodeUint_one : encodeUint 1 = [1] := by decide

theorem encodeUint_zero : encodeUint 0 = [0] := by decide

theorem encField_send (f idx : Int) (val : Bytes) :
    encField f idx true val = (encodeUint (idx - f).toNat ++ val, idx) := rfl

theorem encField_skip (f idx : Int) (val : Bytes) :
    encField f idx false val = ([], f) := rfl

theorem encNameId_valid (name : GoString) (id : Int) (h : ValidNameId name id) :
    encNameId name id
      = encodeUint 1 ++ encBytes name ++ (encodeUint 1 ++ encodeInt id ++ encodeUint 0) := by
  obtain ⟨h1, _, h3, _, _⟩ := h
  have d1 : decide (name.length > 0) = true := by simpa using h1
  have d2 : decide (id ≠ 0) = true := by simpa using h3
  simp only [encNameId, d1, d2, encField_send]
  have e1 : ((0 : Int) - -1).toNat = 1 := by decide
  have e2 : ((1 : Int) - 0).toNat = 1 := by decide
  rw [e1, e2]
  simp only [List.append_assoc]

theorem decodeStructLoop_nameId (name : GoString) (id : Int) (h : ValidNameId name id)
    (fuel : Nat) (rest : Bytes) :
    decodeStructLoop 2 nameIdOp (fuel + 3) (-1) ([], 0) (encNameId name id ++ rest)
      = .ok ((name, id), rest) := by
  rw [encNameId_valid name id h]
  obtain ⟨_, h2, _, h4, h5⟩ := h
  have e : encodeUint 1 ++ encBytes name ++ (encodeUint 1 ++ encodeInt id ++ encodeUint 0) ++ rest
      = encodeUint 1 ++ encBytes name
          ++ (encodeUint 1 ++ encodeInt id ++ (encodeUint 0 ++ rest)) := by
    simp only [List.append_assoc]
  rw [e]
  rw [decodeStructLoop_field 2 nameIdOp (fuel + 2) (-1) ([], 0) (name, 0) 1 _ _ 0
    (by omega) (by omega) (by omega) (by omega)
    (by simp only [nameIdOp]; rw [decBytes_encBytes _ _ h2])]
  rw [decodeStructLoop_field 2 nameIdOp (fuel + 1) ((0 : Nat) : Int) (name, 0) (name, id) 1 _ _ 1
    (by omega) (by omega) (by omega) (by omega)
    (by simp only [nameIdOp]; rw [decInt32_encodeInt _ h4 h5])]
  exact decodeStructLoop_end 2 nameIdOp fuel _ _ _

theorem encNameId_length_ge (name : GoString) (id : Int) (h : ValidNameId name id) :
    5 ≤ (encNameId name id).length := by
  rw [encNameId_valid name id h]
  have := encodeUint_length_pos name.length
  have := encodeUint_length_pos 1
  have := encodeUint_length_pos 0
  have h4 : 1 ≤ (encodeInt id).length := by
    unfold encodeInt; split <;> exact encodeUint_length_pos _
  simp only [encBytes, List.length_append]
  omega

theorem decNameId_encNameId (name : GoString) (id : Int) (h : ValidNameId name id)
    (rest : Bytes) :
    decNameId (encNameId name id ++ rest) = .ok ((name, id), rest) := by
  have hl := encNameId_length_ge name id h
  unfold decNameId decodeStruct
  obtain ⟨k, hk⟩ : ∃ k, (encNameId name id ++ rest).length + 1 = k + 3 :=
    ⟨(encNameId name id ++ rest).length - 2, by simp only [List.length_append]; omega⟩
  rw [hk]
  exact decodeStructLoop_nameId name id h k rest

theorem decFieldElems_enc (fs : List FieldType)
    (hv : ∀ f ∈ fs, ValidNameId f.Name f.Id) (rest : Bytes) :
    decFieldElems fs.length (fs.flatMap (fun f => encNameId f.Name f.Id) ++ rest)
      = .ok (fs, rest) := by
  induction fs with
  | nil => rfl
  | cons f fs ih =>
    have hf := hv f (List.mem_cons_self _ _)
    have hl := encNameId_length_ge f.Name f.Id hf
    have hne : ¬ (encNameId f.Name f.Id ++ (fs.flatMap (fun f => encNameId f.Name f.Id) ++ rest)).length
        = 0 := by
      simp only [List.length_append]; omega
    simp only [List.flatMap_cons, List.length_cons, List.append_assoc, decFieldElems]
    rw [if_neg hne, decNameId_encNameId _ _ hf]
    simp only
    rw [ih (fun g hg => hv g (List.mem_cons_of_mem _ hg))]

theorem decFieldSlice_enc (fs : List FieldType)
    (hv : ∀ f ∈ fs, ValidNameId f.Name f.Id) (hn : fs.length * fieldTypeSize ≤ tooBig)
    (rest : Bytes) :
    decFieldSlice (encFieldSlice fs ++ rest) = .ok (fs, rest) := by
  have hb : fs.length < 2 ^ 63 := by
    simp only [fieldTypeSize, tooBig] at hn; omega
  unfold decFieldSlice encFieldSlice
  rw [List.append_assoc, decodeUint_encodeUint _ (by omega)]
  simp only
  rw [if_neg (by omega)]
  exact decFieldElems_enc fs hv rest

theorem encStructType_valid (st : StructType) (h : ValidStructType st) :
    encStructType st
      = encodeUint 1 ++ encNameId st.Name st.Id
          ++ (encodeUint 1 ++ encFieldSlice st.Field ++ encodeUint 0) := by
  have d1 : decide (st.Field.length > 0) = true := by simpa using h.2.1
  simp only [encStructType, d1, encField_send]
  have e1 : ((0 : Int) - -1).toNat = 1 := by decide
  have e2 : ((1 : Int) - 0).toNat = 1 := by decide
  rw [e1, e2]
  simp only [List.append_assoc]

theorem decodeStructLoop_structType (st : StructType) (h : ValidStructType st)
    (fuel : Nat) (rest : Bytes) :
    decodeStructLoop 2 structTypeOp (fuel + 3) (-1) { Name := [], Id := 0, Field := [] }
        (encStructType st ++ rest)
      = .ok (st, rest) := by
  rw [encStructType_valid st h]
  obtain ⟨h1, _, h3, h4⟩ := h
  have e : encodeUint 1 ++ encNameId st.Name st.Id
          ++ (encodeUint 1 ++ encFieldSlice st.Field ++ encodeUint 0) ++ rest
      = encodeUint 1 ++ encNameId st.Name st.Id
          ++ (encodeUint 1 ++ encFieldSlice st.Field ++ (encodeUint 0 ++ rest)) := by
    simp only [List.append_assoc]
  rw [e]
  rw [decodeStructLoop_field 2 structTypeOp (fuel + 2) (-1) _
    { Name := st.Name, Id := st.Id, Field := [] } 1 _ _ 0
    (by omega) (by omega) (by omega) (by omega)
    (by simp only [structTypeOp]; rw [decNameId_encNameId _ _ h1])]
  rw [decodeStructLoop_field 2 structTypeOp (fuel + 1) ((0 : Nat) : Int) _ st 1 _ _ 1
    (by omega) (by omega) (by omega) (by omega)
    (by simp only [structTypeOp]; rw [decFieldSlice_enc _ h4 h3])]
  exact decodeStructLoop_end 2 structTypeOp fuel _ _ _

theorem encStructType_length_ge (st : StructType) (h : ValidStructType st) :
    3 ≤ (encStructType st).length := by
  rw [encStructType_valid st h]
  have := encodeUint_length_pos 1
  have := encodeUint_length_pos 0
  simp only [List.length_append]
  omega

theorem decWireType_encWireType (st : StructType) (h : ValidStructType st) (rest : Bytes) :
    decWireType (encWireType st ++ rest) = .ok (some st, rest) := by
  have hl := encStructType_length_ge st h
  have e3 : ((2 : Int) - -1).toNat = 3 := by decide
  have e : encWireType st ++ rest = encodeUint 3 ++ encStructType st ++ (encodeUint 0 ++ rest) := by
    simp only [encWireType, encField_send, e3, List.append_assoc]
  unfold decWireType decodeStruct
  obtain ⟨k, hk⟩ : ∃ k, (encWireType st ++ rest).length + 1 = k + 2 :=
    ⟨(encWireType st ++ rest).length - 1, by
      rw [e]; simp only [List.length_append]; omega⟩
  rw [hk, e]
  have hop : wireTypeOp 2 none (encStructType st ++ (encodeUint 0 ++ rest))
      = .ok (some st, encodeUint 0 ++ rest) := by
    simp only [wireTypeOp, decodeStruct]
    obtain ⟨j, hj⟩ : ∃ j, (encStructType st ++ (encodeUint 0 ++ rest)).length + 1 = j + 3 :=
      ⟨(encStructType st ++ (encodeUint 0 ++ rest)).length - 2, by
        simp only [List.length_append]; omega⟩
    rw [hj, decodeStructLoop_structType st h]
  rw [decodeStructLoop_field 7 wireTypeOp (k + 1) (-1) none (some st) 3 _ _ 2
    (by omega) (by omega) (by omega) (by omega) hop]
  exact decodeStructLoop_end 7 wireTypeOp k _ _ _

theorem encPayload_length_ge (p : Payload) :
    p.Key.length ≤ (encPayload p).length ∧ p.Data.length ≤ (encPayload p).length := by
  unfold encPayload encField encBytes
  by_cases hk : p.Key.length > 0 <;> by_cases hd : p.Data.length > 0 <;>
    simp only [hk, hd, decide_True, decide_False, if_true, List.length_append,
      List.length_nil, Bool.false_eq_true, if_false] <;> omega

theorem valueBody_length_ge (tid : Int) (p : Payload) :
    p.Key.length ≤ (valueBody tid p).length ∧ p.Data.length ≤ (valueBody tid p).length := by
  have := encPayload_length_ge p
  simp only [valueBody, List.length_append]
  omega

theorem payloadOp_key (p : Payload) (s rest : Bytes) (hs : s.length < tooBig) :
    payloadOp [FieldOp.key, FieldOp.data] 0 p (encBytes s ++ rest)
      = .ok ({ p with Key := s }, rest) := by
  simp only [payloadOp, List.get?]
  rw [decBytes_encBytes _ _ hs]

theorem payloadOp_data (p : Payload) (s rest : Bytes) (hs : s.length < tooBig) :
    payloadOp [FieldOp.key, FieldOp.data] 1 p (encBytes s ++ rest)
      = .ok ({ p with Data := s }, rest) := by
  simp only [payloadOp, List.get?]
  rw [decBytes_encBytes _ _ hs]

theorem decodeStructLoop_payload (p : Payload) (hk : p.Key.length < tooBig)
    (hd : p.Data.length < tooBig) (fuel : Nat) (rest : Bytes) :
    decodeStructLoop 2 (payloadOp [FieldOp.key, FieldOp.data]) (fuel + 3) (-1)
        { Key := [], Data := [] } (encPayload p ++ rest)
      = .ok (p, rest) := by
  obtain ⟨key, data⟩ := p
  simp only at hk hd
  have e1 : ((0 : Int) - -1).toNat = 1 := by decide
  have e2 : ((1 : Int) - 0).toNat = 1 := by decide
  have e3 : ((1 : Int) - -1).toNat = 2 := by decide
  by_cases h1 : key.length > 0 <;> by_cases h2 : data.length > 0
  · have e : encPayload { Key := key, Data := data } ++ rest
        = encodeUint 1 ++ encBytes key ++ (encodeUint 1 ++ encBytes data ++ (encodeUint 0 ++ rest)) := by
      simp only [encPayload, h1, h2, decide_True, encField_send, e1, e2, List.append_assoc]
    rw [e]
    rw [decodeStructLoop_field 2 _ (fuel + 2) (-1) _ { Key := key, Data := [] } 1 _ _ 0
      (by omega) (by omega) (by omega) (by omega) (payloadOp_key _ _ _ hk)]
    rw [decodeStructLoop_field 2 _ (fuel + 1) ((0 : Nat) : Int) _ { Key := key, Data := data } 1 _ _ 1
      (by omega) (by omega) (by omega) (by omega) (payloadOp_data _ _ _ hd)]
    exact decodeStructLoop_end 2 _ fuel _ _ _
  · have hd0 : data = [] := List.eq_nil_of_length_eq_zero (by omega)
    subst hd0
    have e : encPayload { Key := key, Data := [] } ++ rest
        = encodeUint 1 ++ encBytes key ++ (encodeUint 0 ++ rest) := by
      simp only [encPayload, h1, decide_True, encField_send, encField_skip, e1,
        List.length_nil, gt_iff_lt, Nat.lt_irrefl, decide_False, List.append_nil,
        List.append_assoc]
    rw [e]
    rw [decodeStructLoop_field 2 _ (fuel + 2) (-1) _ { Key := key, Data := [] } 1 _ _ 0
      (by omega) (by omega) (by omega) (by omega) (payloadOp_key _ _ _ hk)]
    exact decodeStructLoop_end 2 _ (fuel + 1) _ _ _
  · have hk0 : key = [] := List.eq_nil_of_length_eq_zero (by omega)
    subst hk0
    have e : encPayload { Key := [], Data := data } ++ rest
        = encodeUint 2 ++ encBytes data ++ (encodeUint 0 ++ rest) := by
      simp only [encPayload, h2, decide_True, encField_send, encField_skip, e3,
        List.length_nil, gt_iff_lt, Nat.lt_irrefl, decide_False, List.nil_append,
        List.append_assoc]
    rw [e]
    rw [decodeStructLoop_field 2 _ (fuel + 2) (-1) _ { Key := [], Data := data } 2 _ _ 1
      (by omega) (by omega) (by omega) (by omega) (payloadOp_data _ _ _ hd)]
    exact decodeStructLoop_end 2 _ (fuel + 1) _ _ _
  · have hk0 : key = [] := List.eq_nil_of_length_eq_zero (by omega)
    have hd0 : data = [] := List.eq_nil_of_length_eq_zero (by omega)
    subst hk0 hd0
    have e : encPayload { Key := [], Data := [] } ++ rest = encodeUint 0 ++ rest := by
      simp only [encPayload, encField_skip, List.length_nil, gt_iff_lt, Nat.lt_irrefl,
        decide_False, List.nil_append]
    rw [e]
    exact decodeStructLoop_end 2 _ (fuel + 2) _ _ _

theorem recvMessage_frame (first : Bool) (body rest : Bytes) (hb : body.length < tooBig) :
    recvMessage first (frame body ++ rest) = .ok (body, rest) := by
  have h64 : body.length < 2 ^ 64 := by simp only [tooBig] at hb; omega
  unfold recvMessage frame
  rw [List.append_assoc, decodeUint_encodeUint _ h64]
  simp only
  rw [if_neg (by omega), if_neg (by simp only [List.length_append]; omega),
    List.take_left, List.drop_left]

theorem payloadWire_valid (tid : Int) (h1 : 64 ≤ tid) (h2 : tid < 2 ^ 31) :
    ValidStructType (payloadWire tid) := by
  have a1 : 0 < (str "Payload").length := by decide
  have a2 : (str "Payload").length < tooBig := by decide
  have a3 : 0 < [({ Name := str "Key", Id := tString } : FieldType),
      { Name := str "Data", Id := tBytes }].length := by decide
  have a4 : [({ Name := str "Key", Id := tString } : FieldType),
      { Name := str "Data", Id := tBytes }].length * fieldTypeSize ≤ tooBig := by decide
  have a5 : tid ≠ 0 := by omega
  have a6 : -(2 ^ 31) ≤ tid := by omega
  refine ⟨⟨a1, a2, a5, a6, h2⟩, a3, a4, ?_⟩
  intro f hf
  simp only [payloadWire, List.mem_cons, List.mem_singleton, List.not_mem_nil, or_false] at hf
  rcases hf with rfl | rfl
  · exact ⟨by decide, by decide, by decide, by decide, by decide⟩
  · exact ⟨by decide, by decide, by decide, by decide, by decide⟩

theorem toInt32_id (v : Int) (h1 : -(2 ^ 31) ≤ v) (h2 : v < 2 ^ 31) : toInt32 v = v := by
  unfold toInt32
  omega

/-- The gob stream of a payload decodes to the payload. -/
theorem gobDecode_frames (tid : Int) (p : Payload) (h1 : 64 ≤ tid) (h2 : tid < 2 ^ 31)
    (hsize : (valueBody tid p).length < tooBig) :
    gobDecode (frame (typeDefBody tid) ++ frame (valueBody tid p)) = .ok p := by
  have hvl := valueBody_length_ge tid p
  have hk : p.Key.length < tooBig := by omega
  have hd : p.Data.length < tooBig := by omega
  obtain ⟨x1, hx1, hx1i⟩ := decodeUint_encodeInt (-tid) (by omega) (by omega)
    (encWireType (payloadWire tid))
  obtain ⟨x2, hx2, hx2i⟩ := decodeUint_encodeInt tid (by omega) (by omega) (encPayload p)
  have hw := decWireType_encWireType (payloadWire tid) (payloadWire_valid tid h1 h2) []
  rw [List.append_nil] at hw
  have hfr1 : 1 ≤ (frame (typeDefBody tid)).length := by
    unfold frame
    have := encodeUint_length_pos (typeDefBody tid).length
    simp only [List.length_append]; omega
  have hfr2 : 1 ≤ (frame (valueBody tid p)).length := by
    unfold frame
    have := encodeUint_length_pos (valueBody tid p).length
    simp only [List.length_append]; omega
  obtain ⟨k, hk2⟩ : ∃ k, (frame (typeDefBody tid) ++ frame (valueBody tid p)).length + 1 = k + 2 :=
    ⟨(frame (typeDefBody tid) ++ frame (valueBody tid p)).length - 1, by
      simp only [List.length_append]; omega⟩
  unfold gobDecode
  rw [hk2]
  -- the type-descriptor message
  rw [decodeMessages, recvMessage_frame _ _ _ (typeDefBody_length_lt tid)]
  simp only
  have hb1 : decodeUint (typeDefBody tid) = .ok (x1, encWireType (payloadWire tid)) := hx1
  rw [hb1]
  simp only [hx1i, toInt32_id (-tid) (by omega) (by omega)]
  rw [if_neg (by omega)]
  rw [if_neg (by simp only [firstUserId, List.lookup, Option.isSome]; simp; omega)]
  rw [hw]
  simp only [List.length_nil, gt_iff_lt, Nat.lt_irrefl, if_false, neg_neg]
  -- the value message
  have hr2 := recvMessage_frame false (valueBody tid p) [] hsize
  rw [List.append_nil] at hr2
  rw [decodeMessages, hr2]
  simp only
  have hb2 : decodeUint (valueBody tid p) = .ok (x2, encPayload p) := hx2
  rw [hb2]
  simp only [hx2i, toInt32_id tid (by omega) (by omega)]
  rw [if_pos (by omega)]
  have hl : List.lookup tid [(tid, payloadWire tid)] = some (payloadWire tid) := by
    simp [List.lookup]
  rw [hl]
  have hc0 : compileDec [({ Name := str "Key", Id := tString } : FieldType),
      { Name := str "Data", Id := tBytes }] = .ok [FieldOp.key, FieldOp.data] := by decide
  have hc : compileDec (payloadWire tid).Field = .ok [FieldOp.key, FieldOp.data] := hc0
  simp only [hc]
  have hp := decodeStructLoop_payload p hk hd ((encPayload p).length - 2 + 0) []
  rw [List.append_nil] at hp
  have hlen : 1 ≤ (encPayload p).length := by
    unfold encPayload
    have := encodeUint_length_pos 0
    simp only [List.length_append]; omega
  unfold decodeStruct
  by_cases hbig : 2 ≤ (encPayload p).length
  · have : (encPayload p).length + 1 = (encPayload p).length - 2 + 0 + 3 := by omega
    simp only [List.length_cons, List.length_nil]
    rw [this, hp]
  · -- a one-byte struct: the terminator alone
    have hp1 := decodeStructLoop_payload p hk hd 0 []
    rw [List.append_nil] at hp1
    have h1b : (encPayload p).length = 1 := by omega
    obtain ⟨key, data⟩ := p
    have hk0 : key = [] := by
      by_contra hne
      have : 0 < key.length := List.length_pos.2 hne
      have hh := encodeUint_length_pos key.length
      have h0 := encodeUint_length_pos 0
      have h1' := encodeUint_length_pos 1
      simp only [encPayload, this, gt_iff_lt, decide_True, encField_send, encBytes,
        List.length_append] at h1b
      omega
    have hd0 : data = [] := by
      by_contra hne
      have : 0 < data.length := List.length_pos.2 hne
      have hh := encodeUint_length_pos data.length
      have h0 := encodeUint_length_pos 0
      have h2' := encodeUint_length_pos ((1 : Int) - (encField (-1) 0 (decide (key.length > 0)) (encBytes key)).2).toNat
      simp only [encPayload, this, gt_iff_lt, decide_True, encField_send, encBytes,
        List.length_append] at h1b
      omega
    subst hk0 hd0
    decide

/-! ## Fan-out -/

theorem allOK_writes : AllWritesSucceed allOK := fun _ _ _ => rfl

theorem multiWrite_ok (env : Env) (hok : AllWritesSucceed env) (b : Bytes) (ws : List Peer) :
    ∀ hist : List Event,
      multiWrite env ws hist b = (ws.map (fun w => Event.peerWrite w b), none) := by
  induction ws with
  | nil => intro hist; rfl
  | cons w ws ih =>
    intro hist
    simp [multiWrite, hok hist w b, ih]

theorem gobEncode_ok (env : Env) (hok : AllWritesSucceed env) (tid : Int) (ws : List Peer)
    (hist : List Event) (p : Payload) (hsize : (valueBody tid p).length < tooBig) :
    gobEncode env tid ws hist p
      = (ws.map (fun w => Event.peerWrite w (frame (typeDefBody tid)))
          ++ ws.map (fun w => Event.peerWrite w (frame (valueBody tid p))), none) := by
  have h1 : ¬ (typeDefBody tid).length ≥ tooBig := Nat.not_le.2 (typeDefBody_length_lt tid)
  have h2 : ¬ (valueBody tid p).length ≥ tooBig := Nat.not_le.2 hsize
  simp only [gobEncode, writeMessage, h1, h2, if_false, multiWrite_ok env hok]

theorem gobEncode_tooBig (env : Env) (hok : AllWritesSucceed env) (tid : Int) (ws : List Peer)
    (hist : List Event) (p : Payload) (hsize : tooBig ≤ (valueBody tid p).length) :
    gobEncode env tid ws hist p
      = (ws.map (fun w => Event.peerWrite w (frame (typeDefBody tid))), some GoError.gobTooBig) := by
  have h1 : ¬ (typeDefBody tid).length ≥ tooBig := Nat.not_le.2 (typeDefBody_length_lt tid)
  have h2 : (valueBody tid p).length ≥ tooBig := hsize
  simp only [gobEncode, writeMessage, h1, h2, if_false, if_true, multiWrite_ok env hok,
    List.append_nil]

theorem peerWrites_append (l1 l2 : List Event) :
    peerWrites (l1 ++ l2) = peerWrites l1 ++ peerWrites l2 := by
  induction l1 with
  | nil => rfl
  | cons a l ih =>
    have ih2 : peerWrites (l ++ l2) = peerWrites l ++ peerWrites l2 := ih
    cases a <;> simp only [List.cons_append, peerWrites, List.append_eq, ih2]

theorem peerWrites_map (ws : List Peer) (b : Bytes) :
    peerWrites (ws.map (fun w => Event.peerWrite w b)) = ws.map (fun w => (w, b)) := by
  induction ws with
  | nil => rfl
  | cons w ws ih => simp [peerWrites, ih]

theorem filter_map_pair_mem (b : Bytes) (h : Peer) (ws : List Peer) (hnd : ws.Nodup)
    (hm : h ∈ ws) :
    ((ws.map (fun w => (w, b))).filter (fun w => w.1 = h)).map Prod.snd = [b] := by
  induction ws with
  | nil => cases hm
  | cons w ws ih =>
    rw [List.nodup_cons] at hnd
    by_cases hw : w = h
    · subst hw
      have hnone : ∀ x ∈ ws, ¬ x = w := fun x hx hxw => hnd.1 (hxw ▸ hx)
      simp [List.filter_cons, List.filter_map]
      intro x hx hxw
      exact hnone x hx hxw
    · have hm2 : h ∈ ws := by
        rcases List.mem_cons.1 hm with h1 | h1
        · exact absurd h1.symm hw
        · exact h1
      simp [List.filter_cons, hw]
      simpa using ih hnd.2 hm2

theorem writesTo_append (h : Peer) (l1 l2 : List Event) :
    writesTo h (l1 ++ l2) = writesTo h l1 ++ writesTo h l2 := by
  simp [writesTo, peerWrites_append]

theorem writesTo_map (b : Bytes) (h : Peer) (ws : List Peer) (hnd : ws.Nodup) (hm : h ∈ ws) :
    writesTo h (ws.map (fun w => Event.peerWrite w b)) = [b] := by
  simp only [writesTo, peerWrites_map]
  exact filter_map_pair_mem b h ws hnd hm

/-- C3 as stated fails: with one registered peer and every write succeeding,
a broadcast invokes the write capability of that peer twice, not once. -/
theorem broadcast_writes_twice_to_a_single_peer :
    AllWritesSucceed allOK ∧
    ¬ (∀ h ∈ [({ addr := str ":3000", conn := 1 } : Peer)],
        (writesTo h (broadcast allOK 65
          { BootstrapNodes := [], peers := [(str ":3000", { addr := str ":3000", conn := 1 })],
            quitClosed := false } [] { Key := str "k", Data := [1] }).1).length = 1) := by
  refine ⟨allOK_writes, ?_⟩
  decide

/-- C3 amended: for a registry of N distinct handles, a broadcast in which all
writes succeed, of a payload whose value message is below the size limit of
gob, returns no error and writes exactly twice to each handle: first the
type-descriptor message, then the value message, the same two byte sequences
for all handles (2N writes, descriptor round first). -/
theorem broadcast_fan_out_two_writes_each (env : Env) (tid : Int) (s : FileServer)
    (hist : List Event) (p : Payload)
    (hok : AllWritesSucceed env)
    (hsize : (valueBody tid p).length < tooBig)
    (hnd : (s.peers.map Prod.snd).Nodup) :
    (broadcast env tid s hist p).2 = none ∧
    peerWrites (broadcast env tid s hist p).1
      = (s.peers.map (fun e => (e.2, frame (typeDefBody tid))))
        ++ (s.peers.map (fun e => (e.2, frame (valueBody tid p)))) ∧
    (peerWrites (broadcast env tid s hist p).1).length = 2 * s.peers.length ∧
    (∀ h ∈ s.peers.map Prod.snd,
      writesTo h (broadcast env tid s hist p).1
        = [frame (typeDefBody tid), frame (valueBody tid p)]) := by
  have hb : broadcast env tid s hist p
      = (Event.mapRange :: ((s.peers.map Prod.snd).map
            (fun w => Event.peerWrite w (frame (typeDefBody tid)))
          ++ (s.peers.map Prod.snd).map
            (fun w => Event.peerWrite w (frame (valueBody tid p)))), none) := by
    simp only [broadcast, gobEncode_ok env hok tid _ _ p hsize]
  rw [hb]
  refine ⟨rfl, ?_, ?_, ?_⟩
  · simp only [peerWrites, peerWrites_append]
    rw [peerWrites_map, peerWrites_map, List.map_map, List.map_map]
    rfl
  · simp only [peerWrites, peerWrites_append]
    rw [peerWrites_map, peerWrites_map]
    simp only [List.length_append, List.length_map]
    omega
  · intro h hm
    have e1 : (Event.mapRange :: ((s.peers.map Prod.snd).map
            (fun w => Event.peerWrite w (frame (typeDefBody tid)))
          ++ (s.peers.map Prod.snd).map
            (fun w => Event.peerWrite w (frame (valueBody tid p)))))
        = [Event.mapRange] ++ ((s.peers.map Prod.snd).map
            (fun w => Event.peerWrite w (frame (typeDefBody tid)))
          ++ (s.peers.map Prod.snd).map
            (fun w => Event.peerWrite w (frame (valueBody tid p)))) := rfl
    simp only [e1]
    rw [writesTo_append, writesTo_append, writesTo_map _ h _ hnd hm, writesTo_map _ h _ hnd hm]
    rfl

theorem multiWrite_failure_is_last (env : Env) (e : GoError) (b : Bytes) (ws : List Peer) :
    ∀ (hist pre post : List Event) (p : Peer) (c : Bytes),
      (multiWrite env ws hist b).1 = pre ++ Event.peerWrite p c :: post →
      (env.peerWrite (hist ++ pre) p c).2 = some e →
      post = [] ∧ (multiWrite env ws hist b).2 = some e := by
  induction ws with
  | nil =>
    intro hist pre post p c h _
    simp [multiWrite] at h
  | cons w ws ih =>
    intro hist pre post p c h hfail
    cases hw : (env.peerWrite hist w b).2 with
    | some e0 =>
      have hm : multiWrite env (w :: ws) hist b = ([Event.peerWrite w b], some e0) := by
        simp [multiWrite, hw]
      rw [hm] at h ⊢
      cases pre with
      | nil =>
        simp only [List.nil_append, List.cons.injEq, Event.peerWrite.injEq] at h
        obtain ⟨⟨h1, h2⟩, h3⟩ := h
        subst h1 h2
        rw [List.append_nil, hw] at hfail
        exact ⟨h3.symm, hfail⟩
      | cons a pre1 =>
        simp at h
    | none =>
      by_cases hn : (env.peerWrite hist w b).1 ≠ b.length
      · have hm : multiWrite env (w :: ws) hist b
            = ([Event.peerWrite w b], some GoError.shortWrite) := by
          simp [multiWrite, hw, hn]
        rw [hm] at h
        cases pre with
        | nil =>
          simp only [List.nil_append, List.cons.injEq, Event.peerWrite.injEq] at h
          obtain ⟨⟨h1, h2⟩, _⟩ := h
          subst h1 h2
          rw [List.append_nil, hw] at hfail
          cases hfail
        | cons a pre1 =>
          simp at h
      · have hm : multiWrite env (w :: ws) hist b
            = (Event.peerWrite w b :: (multiWrite env ws (hist ++ [Event.peerWrite w b]) b).1,
               (multiWrite env ws (hist ++ [Event.peerWrite w b]) b).2) := by
          simp only [multiWrite, hw]
          rw [if_neg hn]
        rw [hm] at h ⊢
        cases pre with
        | nil =>
          simp only [List.nil_append, List.cons.injEq, Event.peerWrite.injEq] at h
          obtain ⟨⟨h1, h2⟩, _⟩ := h
          subst h1 h2
          rw [List.append_nil, hw] at hfail
          cases hfail
        | cons a pre1 =>
          simp only [List.cons_append, List.cons.injEq] at h
          obtain ⟨h1, h2⟩ := h
          subst h1
          have hh : hist ++ Event.peerWrite w b :: pre1
              = (hist ++ [Event.peerWrite w b]) ++ pre1 := by simp
          rw [hh] at hfail
          exact ih _ pre1 post p c h2 hfail

theorem writeMessage_failure_is_last (env : Env) (e : GoError) (ws : List Peer)
    (hist pre post : List Event) (body : Bytes) (p : Peer) (c : Bytes)
    (h : (writeMessage env ws hist body).1 = pre ++ Event.peerWrite p c :: post)
    (hfail : (env.peerWrite (hist ++ pre) p c).2 = some e) :
    post = [] ∧ (writeMessage env ws hist body).2 = some e := by
  unfold writeMessage at h ⊢
  split at h
  · simp at h
  · rename_i hsz
    rw [if_neg hsz]
    exact multiWrite_failure_is_last env e _ ws hist pre post p c h hfail

theorem gobEncode_failure_is_last (env : Env) (e : GoError) (tid : Int) (ws : List Peer)
    (hist pre post : List Event) (pl : Payload) (p : Peer) (c : Bytes)
    (h : (gobEncode env tid ws hist pl).1 = pre ++ Event.peerWrite p c :: post)
    (hfail : (env.peerWrite (hist ++ pre) p c).2 = some e) :
    post = [] ∧ (gobEncode env tid ws hist pl).2 = some e := by
  cases h1 : (writeMessage env ws hist (typeDefBody tid)).2 with
  | some e1 =>
    have hg : gobEncode env tid ws hist pl
        = ((writeMessage env ws hist (typeDefBody tid)).1, some e1) := by
      simp [gobEncode, h1]
    rw [hg] at h ⊢
    have := writeMessage_failure_is_last env e ws hist pre post _ p c h hfail
    rw [h1] at this
    exact this
  | none =>
    have hg : gobEncode env tid ws hist pl
        = ((writeMessage env ws hist (typeDefBody tid)).1
            ++ (writeMessage env ws (hist ++ (writeMessage env ws hist (typeDefBody tid)).1)
                (valueBody tid pl)).1,
           (writeMessage env ws (hist ++ (writeMessage env ws hist (typeDefBody tid)).1)
                (valueBody tid pl)).2) := by
      simp [gobEncode, h1]
    rw [hg] at h ⊢
    rcases List.append_eq_append_iff.1 h with ⟨a, ha1, ha2⟩ | ⟨a, ha1, ha2⟩
    · -- the write lies in the value message
      have hh : hist ++ pre
          = (hist ++ (writeMessage env ws hist (typeDefBody tid)).1) ++ a := by
        rw [ha1]; simp
      rw [hh] at hfail
      exact writeMessage_failure_is_last env e ws _ a post _ p c ha2 hfail
    · -- the write lies in the type-descriptor message, which returned no error
      cases a with
      | nil =>
        simp only [List.append_nil] at ha1
        simp only [List.nil_append] at ha2
        have hh : hist ++ pre
            = (hist ++ (writeMessage env ws hist (typeDefBody tid)).1) ++ [] := by
          rw [ha1]; simp
        rw [hh] at hfail
        exact writeMessage_failure_is_last env e ws _ [] post _ p c ha2.symm hfail
      | cons x a1 =>
        simp only [List.cons_append, List.cons.injEq] at ha2
        obtain ⟨hx, ha3⟩ := ha2
        subst hx
        have := writeMessage_failure_is_last env e ws hist pre a1 _ p c ha1 hfail
        rw [h1] at this
        cases this.2

theorem broadcast_failure_is_last (env : Env) (e : GoError) (tid : Int) (s : FileServer)
    (hist pre post : List Event) (pl : Payload) (p : Peer) (c : Bytes)
    (h : (broadcast env tid s hist pl).1 = pre ++ Event.peerWrite p c :: post)
    (hfail : (env.peerWrite (hist ++ pre) p c).2 = some e) :
    post = [] ∧ (broadcast env tid s hist pl).2 = some e ∧
    ∃ pre1, pre = Event.mapRange :: pre1 := by
  simp only [broadcast] at h ⊢
  cases pre with
  | nil => simp at h
  | cons a pre1 =>
    simp only [List.cons_append, List.cons.injEq] at h
    obtain ⟨ha, h2⟩ := h
    subst ha
    have hh : hist ++ Event.mapRange :: pre1 = (hist ++ [Event.mapRange]) ++ pre1 := by simp
    rw [hh] at hfail
    have := gobEncode_failure_is_last env e tid _ _ pre1 post pl p c h2 hfail
    exact ⟨this.1, this.2, pre1, rfl⟩

/-- C5: when the store write succeeded and some write to a peer during the
fan-out fails with `e`, that write is the last event of `StoreData` (no later
peer is written to, nothing is undone on the store or on peers already
written), `broadcast` returns `e`, `StoreData` returns `e`, and the store write
happened before, at the head of the trace. -/
theorem StoreData_broadcast_failure_aborts (env : Env) (tid : Int) (s : FileServer)
    (hist : List Event) (key : GoString) (r : Bytes) (e : GoError)
    (pre post : List Event) (p : Peer) (c : Bytes)
    (hstore : (env.storeWrite hist key r).2 = none)
    (htrace : (StoreData env tid s hist key r).1 = pre ++ Event.peerWrite p c :: post)
    (hfail : (env.peerWrite (hist ++ pre) p c).2 = some e) :
    post = [] ∧
    (StoreData env tid s hist key r).2 = some e ∧
    (broadcast env tid s
        (hist ++ [Event.storeWrite key r, Event.println (r.take (env.storeWrite hist key r).1)])
        { Key := key, Data := r.take (env.storeWrite hist key r).1 }).2 = some e ∧
    (∃ pre1, pre = Event.storeWrite key r
        :: Event.println (r.take (env.storeWrite hist key r).1) :: Event.mapRange :: pre1) := by
  have hs : StoreData env tid s hist key r
      = (Event.storeWrite key r :: Event.println (r.take (env.storeWrite hist key r).1)
          :: (broadcast env tid s
              (hist ++ [Event.storeWrite key r,
                Event.println (r.take (env.storeWrite hist key r).1)])
              { Key := key, Data := r.take (env.storeWrite hist key r).1 }).1,
         (broadcast env tid s
              (hist ++ [Event.storeWrite key r,
                Event.println (r.take (env.storeWrite hist key r).1)])
              { Key := key, Data := r.take (env.storeWrite hist key r).1 }).2) := by
    simp [StoreData, hstore]
  rw [hs] at htrace ⊢
  cases pre with
  | nil => simp at htrace
  | cons a pre1 =>
    cases pre1 with
    | nil => simp at htrace
    | cons a2 pre2 =>
      simp only [List.cons_append, List.cons.injEq] at htrace
      obtain ⟨ha, ha2, h2⟩ := htrace
      subst ha ha2
      have hh : hist ++ Event.storeWrite key r
            :: Event.println (r.take (env.storeWrite hist key r).1) :: pre2
          = (hist ++ [Event.storeWrite key r,
              Event.println (r.take (env.storeWrite hist key r).1)]) ++ pre2 := by simp
      rw [hh] at hfail
      obtain ⟨h3, h4, pre3, h5⟩ := broadcast_failure_is_last env e tid s _ pre2 post _ p c h2 hfail
      subst h5
      exact ⟨h3, h4, h4, pre3, rfl⟩

/-! ## StoreData, OnPeer and the lock -/

/-- C1: if `Store.Write(key, stream)` returns an error `e`, then `StoreData`
returns exactly `e`, its only event is the store write, no write reaches any
peer and the `peers` map is not ranged over (broadcast is not entered). -/
theorem StoreData_store_error (env : Env) (tid : Int) (s : FileServer) (hist : List Event)
    (key : GoString) (r : Bytes) (e : GoError)
    (h : (env.storeWrite hist key r).2 = some e) :
    (StoreData env tid s hist key r).2 = some e ∧
    (StoreData env tid s hist key r).1 = [Event.storeWrite key r] ∧
    peerWrites (StoreData env tid s hist key r).1 = [] ∧
    Event.mapRange ∉ (StoreData env tid s hist key r).1 := by
  simp [StoreData, h, peerWrites]

theorem filter_mapAssign_eq (m : List (GoString × Peer)) (k : GoString) (p : Peer) :
    (mapAssign m k p).filter (fun e => e.1 = k) = [(k, p)] := by
  simp [mapAssign, List.filter_append, List.filter_filter]

theorem filter_mapAssign_ne (m : List (GoString × Peer)) (k : GoString) (p : Peer) :
    (mapAssign m k p).filter (fun e => e.1 ≠ k) = m.filter (fun e => e.1 ≠ k) := by
  simp [mapAssign, List.filter_append, List.filter_filter]

/-- C6: after `OnPeer(h1)` and then `OnPeer(h2)`, both handles reporting the
identity `id`, the registry has exactly one entry for `id` and it holds `h2`,
the entries of every other identity are unchanged, and both calls return no error. -/
theorem OnPeer_twice_same_identity (s : FileServer) (id : GoString) (h1 h2 : Peer)
    (e1 : h1.addr = id) (e2 : h2.addr = id) :
    ((OnPeer (OnPeer s h1).1 h2).1.peers.filter (fun e => e.1 = id) = [(id, h2)]) ∧
    ((OnPeer (OnPeer s h1).1 h2).1.peers.filter (fun e => e.1 ≠ id)
      = s.peers.filter (fun e => e.1 ≠ id)) ∧
    (OnPeer s h1).2.2 = none ∧ (OnPeer (OnPeer s h1).1 h2).2.2 = none := by
  subst e1
  refine ⟨?_, ?_, rfl, rfl⟩
  · simp only [OnPeer, e2]
    exact filter_mapAssign_eq _ _ _
  · simp only [OnPeer, e2]
    rw [filter_mapAssign_ne, filter_mapAssign_ne]

/-- C7, the code at any input: `OnPeer` accesses the `peers` map between
`Lock` and `Unlock` of `peerLock`, but `broadcast` (and so `StoreData`) ranges
over the map without holding the lock. -/
theorem broadcast_ranges_peers_without_lock (env : Env) (tid : Int) (s : FileServer)
    (hist : List Event) (p : Payload) (q : Peer) :
    lockOK false (OnPeer s q).2.1 = true ∧
    lockOK false (broadcast env tid s hist p).1 = false := by
  constructor
  · simp [OnPeer, lockOK]
  · simp [broadcast, lockOK]

/-! ## Bootstrap dialing -/

theorem dials_append (l1 l2 : List Event) : dials (l1 ++ l2) = dials l1 ++ dials l2 := by
  induction l1 with
  | nil => rfl
  | cons a l ih => cases a <;> simp [dials, ih]

theorem dials_dialTask (env : Env) (hist : List Event) (a : GoString) :
    dials (dialTask env hist a) = [a] := by
  unfold dialTask
  split <;> simp [dials]

theorem dials_runTasks (env : Env) (order : List GoString) :
    ∀ hist : List Event, dials (runTasks env hist order) = order := by
  induction order with
  | nil => intro hist; rfl
  | cons a rest ih =>
    intro hist
    simp only [runTasks]
    rw [dials_append, dials_dialTask, ih]
    rfl

theorem bootstrapLoop_eq_filter (nodes : List GoString) :
    bootstrapLoop nodes = nodes.filter (fun a => a.length ≠ 0) := by
  induction nodes with
  | nil => rfl
  | cons a rest ih =>
    by_cases h : a.length = 0
    · have hd : decide (a.length ≠ 0) = false := by simpa using h
      rw [bootstrapLoop, if_pos h, ih, List.filter_cons]
      simp only [hd, Bool.false_eq_true, if_false]
    · have hd : decide (a.length ≠ 0) = true := by simpa using h
      rw [bootstrapLoop, if_neg h, ih, List.filter_cons]
      simp only [hd, if_true]

/-- C10: `bootstrapNetwork` returns no error and starts one dialing goroutine
for every non-empty entry of the bootstrap list (one per occurrence) and none
for an empty entry; each goroutine calls `Dial` once with its address whether
or not the dial fails, so the addresses dialed, in whatever order the
goroutines run, are the non-empty entries with their multiplicity. -/
theorem bootstrapNetwork_dials_each_nonempty_once (env : Env) (s : FileServer)
    (hist : List Event) (order : List GoString)
    (hperm : order.Perm (bootstrapNetwork s).1) :
    (bootstrapNetwork s).2 = none ∧
    (bootstrapNetwork s).1 = s.BootstrapNodes.filter (fun a => a.length ≠ 0) ∧
    (∀ (h : List Event) (a : GoString), dials (dialTask env h a) = [a]) ∧
    (dials (runTasks env hist order)).Perm (s.BootstrapNodes.filter (fun a => a.length ≠ 0)) ∧
    (∀ a ∈ dials (runTasks env hist order), a.length ≠ 0) := by
  have hd : dials (runTasks env hist order) = order := dials_runTasks env order hist
  have hf : (bootstrapNetwork s).1 = s.BootstrapNodes.filter (fun a => a.length ≠ 0) :=
    bootstrapLoop_eq_filter s.BootstrapNodes
  refine ⟨rfl, hf, fun h a => dials_dialTask env h a, ?_, ?_⟩
  · rw [hd, ← hf]; exact hperm
  · intro a ha
    rw [hd] at ha
    have := (hperm.mem_iff).1 ha
    rw [hf, List.mem_filter] at this
    simpa using this.2

/-! ## The control loop: theorems -/

theorem closeCount_append (l1 l2 : List Event) :
    closeCount (l1 ++ l2) = closeCount l1 + closeCount l2 := by
  induction l1 with
  | nil => simp [closeCount]
  | cons a l ih =>
    have ih2 : closeCount (l ++ l2) = closeCount l + closeCount l2 := ih
    cases a <;> simp only [List.cons_append, closeCount, List.append_eq, ih2]
    omega

theorem closeCount_handleMessage (decode : Bytes → Payload × Option DecErr) (m : RPC) :
    closeCount (handleMessage decode m) = 0 := by
  simp only [handleMessage]
  split <;> simp [closeCount]

/-- While `quitch` is open, a `select` that finds a message handles it and the loop goes on. -/
theorem run_messages_before_quit (decode : Bytes → Payload × Option DecErr)
    (msgs : List (RPC × Bool)) :
    ∀ r : Run, r.returned = false → r.crashed = false → r.srv.quitClosed = false →
      loop decode r (msgs.map (fun m => Action.select (some m.1) m.2))
        = { r with events := r.events ++ msgs.flatMap (fun m => handleMessage decode m.1) } := by
  induction msgs with
  | nil => intro r _ _ _; simp [loop]
  | cons m rest ih =>
    intro r h1 h2 h3
    have hs : step decode r (Action.select (some m.1) m.2)
        = { r with events := r.events ++ handleMessage decode m.1 } := by
      simp [step, h1, h2, h3]
    have h := ih { r with events := r.events ++ handleMessage decode m.1 } h1 h2 h3
    simp only [loop, List.map_cons, List.foldl_cons, hs] at h ⊢
    rw [h]
    simp [List.append_assoc]

theorem step_inv (decode : Bytes → Payload × Option DecErr) (r : Run) (a : Action)
    (h : RunInv r) : RunInv (step decode r a) := by
  obtain ⟨hc, hq⟩ := h
  cases a with
  | stop =>
    by_cases hcr : r.crashed = true
    · have : step decode r Action.stop = r := by simp [step, hcr]
      rw [this]; exact ⟨hc, hq⟩
    · by_cases hqc : r.srv.quitClosed = true
      · have : step decode r Action.stop = { r with crashed := true } := by
          simp [step, Stop, hcr, hqc]
        rw [this]; exact ⟨hc, hq⟩
      · have : step decode r Action.stop = { r with srv := { r.srv with quitClosed := true } } := by
          simp [step, Stop, hcr, hqc]
        rw [this]; exact ⟨hc, fun _ => rfl⟩
  | select msg pick =>
    by_cases hcr : r.crashed = true
    · have : step decode r (Action.select msg pick) = r := by simp [step, hcr]
      rw [this]; exact ⟨hc, hq⟩
    · by_cases hret : r.returned = true
      · have : step decode r (Action.select msg pick) = r := by simp [step, hret]
        rw [this]; exact ⟨hc, hq⟩
      · have hret2 : r.returned = false := by simpa using hret
        have hcr2 : r.crashed = false := by simpa using hcr
        rw [hret2] at hc
        simp only [if_false, Bool.false_eq_true] at hc
        cases msg <;> cases hqc : r.srv.quitClosed <;> cases pick <;>
          simp [step, hcr2, hret2, RunInv, quitCase, closeCount_append, closeCount_handleMessage,
            closeCount, hqc, hc]

theorem run_inv (decode : Bytes → Payload × Option DecErr) (acts : List Action) :
    ∀ r : Run, RunInv r → RunInv (loop decode r acts) := by
  induction acts with
  | nil => intro r h; exact h
  | cons a rest ih => intro r h; exact ih _ (step_inv decode r a h)

theorem run_without_stop (decode : Bytes → Payload × Option DecErr) (acts : List Action) :
    ∀ r : Run, r.returned = false → r.srv.quitClosed = false → Action.stop ∉ acts →
      (loop decode r acts).returned = false := by
  induction acts with
  | nil => intro r h _ _; exact h
  | cons a rest ih =>
    intro r h1 h2 h3
    simp only [List.mem_cons, not_or] at h3
    cases a with
    | stop => exact absurd rfl h3.1
    | select msg pick =>
      have hs : (step decode r (Action.select msg pick)).returned = false ∧
          (step decode r (Action.select msg pick)).srv.quitClosed = false := by
        cases msg <;> by_cases hcr : r.crashed = true <;> simp [step, h1, h2, hcr]
      exact ih _ hs.1 hs.2 h3.2

/-- With `quitch` closed the loop has returned after a sequence of `select`
evaluations exactly if it had returned before or one of them took the quit case. -/
theorem run_after_stop (decode : Bytes → Payload × Option DecErr)
    (sels : List (Option RPC × Bool)) :
    ∀ r : Run, r.crashed = false → r.srv.quitClosed = true →
      ((loop decode r (sels.map selectAct)).returned = true ↔
        (r.returned = true ∨ ∃ x ∈ sels, x.1 = none ∨ x.2 = true)) := by
  induction sels with
  | nil => intro r _ _; simp [loop]
  | cons x rest ih =>
    intro r h1 h2
    obtain ⟨m, pick⟩ := x
    have hs : (step decode r (Action.select m pick)).crashed = false ∧
        (step decode r (Action.select m pick)).srv.quitClosed = true ∧
        ((step decode r (Action.select m pick)).returned = true ↔
          (r.returned = true ∨ m = none ∨ pick = true)) := by
      cases m <;> cases pick <;> cases hr : r.returned <;> simp [step, h1, h2, hr, quitCase]
    have := ih (step decode r (Action.select m pick)) hs.1 hs.2.1
    simp only [loop, List.map_cons, List.foldl_cons, selectAct] at this ⊢
    rw [this, hs.2.2]
    constructor
    · rintro ((h | h) | ⟨x, hx, h⟩)
      · exact Or.inl h
      · exact Or.inr ⟨(m, pick), List.mem_cons_self _ _, h⟩
      · exact Or.inr ⟨x, List.mem_cons_of_mem _ hx, h⟩
    · rintro (h | ⟨x, hx, h⟩)
      · exact Or.inl (Or.inl h)
      · rcases List.mem_cons.1 hx with rfl | hx
        · exact Or.inl (Or.inr h)
        · exact Or.inr ⟨x, hx, h⟩

/-- C8: for every sequence of inbound messages taken by `loop` while `quitch`
is open, the loop does not return, the server (registry included) is unchanged,
and the events are those of the messages one after the other in arrival order:
a message that fails to decode adds its two log lines and the print, a valid
one its print; no store or peer event occurs. -/
theorem loop_decode_failure_isolated (decode : Bytes → Payload × Option DecErr)
    (s : FileServer) (msgs : List (RPC × Bool)) (hq : s.quitClosed = false) :
    (loop decode (startLoop s) (msgs.map (fun m => Action.select (some m.1) m.2))).returned = false ∧
    (loop decode (startLoop s) (msgs.map (fun m => Action.select (some m.1) m.2))).crashed = false ∧
    (loop decode (startLoop s) (msgs.map (fun m => Action.select (some m.1) m.2))).srv = s ∧
    (loop decode (startLoop s) (msgs.map (fun m => Action.select (some m.1) m.2))).events
      = msgs.flatMap (fun m => handleMessage decode m.1) ∧
    (∀ (m : RPC) (e : DecErr), (decode m.Payload).2 = some e →
      handleMessage decode m
        = [Event.lineError, Event.logDecodeErr e, Event.printData (decode m.Payload).1.Data]) ∧
    (∀ m : RPC, (decode m.Payload).2 = none →
      handleMessage decode m = [Event.printData (decode m.Payload).1.Data]) := by
  rw [run_messages_before_quit decode msgs (startLoop s) rfl rfl hq]
  refine ⟨rfl, rfl, rfl, by simp [startLoop], ?_, ?_⟩
  · intro m e h; simp [handleMessage, h]
  · intro m h; simp [handleMessage, h]

/-- C9 as stated fails: there is no bound on the number of `select`
evaluations after `Stop` within which `loop` returns; the runtime may keep
choosing a ready message over the closed `quitch`. -/
theorem loop_has_no_iteration_bound :
    ¬ ∃ B : Nat, ∀ sels : List (Option RPC × Bool), B ≤ sels.length →
      (loop decodeOrZero (startLoop { BootstrapNodes := [], peers := [], quitClosed := false })
        (Action.stop :: sels.map selectAct)).returned = true := by
  rintro ⟨B, h⟩
  have h1 := h (List.replicate B (some { From := [], Payload := [] }, false)) (by simp)
  simp only [loop, List.foldl_cons] at h1
  have h2 := (run_after_stop decodeOrZero (List.replicate B (some { From := [], Payload := [] }, false))
    (step decodeOrZero (startLoop { BootstrapNodes := [], peers := [], quitClosed := false })
      Action.stop) rfl rfl).1 h1
  rcases h2 with h2 | ⟨x, hx, h3⟩
  · simp [step, startLoop, Stop] at h2
  · rw [List.mem_replicate] at hx
    rw [hx.2] at h3
    simp at h3

/-- C9 amended: `loop` returns only after `Stop` was called; `Close` has been
invoked exactly once when the loop has returned and not at all while it runs;
and after `Stop` the loop has returned exactly when one of its `select`
evaluations found no message ready or was resolved towards `quitch`. -/
theorem loop_returns_exactly_on_quit_case (decode : Bytes → Payload × Option DecErr)
    (s : FileServer) (hq : s.quitClosed = false) (acts : List Action)
    (pre : List (RPC × Bool)) (sels : List (Option RPC × Bool)) :
    ((loop decode (startLoop s) acts).returned = true → Action.stop ∈ acts) ∧
    (closeCount (loop decode (startLoop s) acts).events
      = if (loop decode (startLoop s) acts).returned then 1 else 0) ∧
    ((loop decode (startLoop s)
        (pre.map (fun m => Action.select (some m.1) m.2) ++ Action.stop :: sels.map selectAct)).returned
        = true ↔ ∃ x ∈ sels, x.1 = none ∨ x.2 = true) := by
  refine ⟨?_, ?_, ?_⟩
  · intro h
    by_contra hn
    rw [run_without_stop decode acts (startLoop s) rfl hq hn] at h
    exact Bool.false_ne_true h
  · exact (run_inv decode acts (startLoop s) ⟨rfl, fun h => absurd h Bool.false_ne_true⟩).1
  · have hsplit : loop decode (startLoop s)
        (pre.map (fun m => Action.select (some m.1) m.2) ++ Action.stop :: sels.map selectAct)
        = loop decode (step decode (loop decode (startLoop s)
            (pre.map (fun m => Action.select (some m.1) m.2))) Action.stop) (sels.map selectAct) := by
      simp [loop, List.foldl_append]
    rw [hsplit, run_messages_before_quit decode pre (startLoop s) rfl rfl hq]
    have hst : step decode
          { startLoop s with
            events := ((startLoop s).events ++ pre.flatMap (fun m => handleMessage decode m.1)) }
          Action.stop
        = { srv := { s with quitClosed := true }, returned := false, crashed := false,
            events := (startLoop s).events ++ pre.flatMap (fun m => handleMessage decode m.1) } := by
      simp [step, Stop, startLoop, hq]
    rw [hst, run_after_stop decode sels _ rfl rfl]
    simp

/-! ## StoreData and the codec end to end -/

theorem gobEncodeBuffer_small (tid : Int) (p : Payload)
    (hsize : (valueBody tid p).length < tooBig) :
    gobEncodeBuffer tid p = (frame (typeDefBody tid) ++ frame (valueBody tid p), none) := by
  unfold gobEncodeBuffer
  rw [gobEncode_ok allOK allOK_writes tid _ _ p hsize]
  simp [peerWrites]

theorem gobEncodeBuffer_big (tid : Int) (p : Payload)
    (hsize : tooBig ≤ (valueBody tid p).length) :
    gobEncodeBuffer tid p = (frame (typeDefBody tid), some GoError.gobTooBig) := by
  unfold gobEncodeBuffer
  rw [gobEncode_tooBig allOK allOK_writes tid _ _ p hsize]
  simp [peerWrites]

theorem hugePayload_tooBig (tid : Int) : tooBig ≤ (valueBody tid hugePayload).length := by
  have h := (valueBody_length_ge tid hugePayload).2
  have hl : hugePayload.Data.length = 2 ^ 33 := by
    simp only [hugePayload, List.length_replicate]
  rw [hl] at h
  simp only [tooBig]
  exact h

theorem StoreData_ok (env : Env) (tid : Int) (s : FileServer) (hist : List Event)
    (key : GoString) (r : Bytes)
    (hstore1 : (env.storeWrite hist key r).2 = none)
    (hstore2 : r.length ≤ (env.storeWrite hist key r).1)
    (hok : AllWritesSucceed env)
    (hsize : (valueBody tid { Key := key, Data := r }).length < tooBig) :
    StoreData env tid s hist key r
      = (Event.storeWrite key r :: Event.println r :: Event.mapRange ::
          ((s.peers.map Prod.snd).map
              (fun w => Event.peerWrite w (frame (typeDefBody tid)))
            ++ (s.peers.map Prod.snd).map
              (fun w => Event.peerWrite w (frame (valueBody tid { Key := key, Data := r })))),
         none) := by
  have ht : r.take (env.storeWrite hist key r).1 = r := List.take_of_length_le hstore2
  simp only [StoreData, hstore1, ht, broadcast, gobEncode_ok env hok tid _ _ _ hsize]

theorem StoreData_tooBig (env : Env) (tid : Int) (s : FileServer) (hist : List Event)
    (key : GoString) (r : Bytes)
    (hstore1 : (env.storeWrite hist key r).2 = none)
    (hstore2 : r.length ≤ (env.storeWrite hist key r).1)
    (hok : AllWritesSucceed env)
    (hsize : tooBig ≤ (valueBody tid { Key := key, Data := r }).length) :
    (StoreData env tid s hist key r).2 = some GoError.gobTooBig := by
  have ht : r.take (env.storeWrite hist key r).1 = r := List.take_of_length_le hstore2
  simp only [StoreData, hstore1, ht, broadcast, gobEncode_tooBig env hok tid _ _ _ hsize]

/-- C2 as stated fails: with the store reading the whole stream and every
peer write succeeding, `StoreData` of a stream of `2^33` bytes returns the
error of gob for a message that is too big. -/
theorem StoreData_huge_stream_returns_error :
    (allOK.storeWrite [] [] hugePayload.Data).2 = none ∧
    hugePayload.Data.length ≤ (allOK.storeWrite [] [] hugePayload.Data).1 ∧
    AllWritesSucceed allOK ∧
    (StoreData allOK 65 serverAB [] [] hugePayload.Data).2 = some GoError.gobTooBig :=
  ⟨rfl, Nat.le_refl _, allOK_writes,
    StoreData_tooBig allOK 65 serverAB [] [] hugePayload.Data rfl (Nat.le_refl _) allOK_writes
      (hugePayload_tooBig 65)⟩

/-- C2 amended: when the store read the whole stream `r` and succeeded, every
peer write succeeds, the handles are distinct and the value message is below
the size limit of gob, `StoreData(key, r)` returns no error, its first event is
the store write with `key` and `r`, and the bytes written to every registered
peer are what gob encodes `{Key: key, Data: r}` to. -/
theorem StoreData_success_delivers_encoding (env : Env) (tid : Int) (s : FileServer)
    (hist : List Event) (key : GoString) (r : Bytes)
    (hstore1 : (env.storeWrite hist key r).2 = none)
    (hstore2 : r.length ≤ (env.storeWrite hist key r).1)
    (hok : AllWritesSucceed env)
    (hsize : (valueBody tid { Key := key, Data := r }).length < tooBig)
    (hnd : (s.peers.map Prod.snd).Nodup) :
    (StoreData env tid s hist key r).2 = none ∧
    (StoreData env tid s hist key r).1
      = Event.storeWrite key r :: Event.println r :: Event.mapRange ::
          ((s.peers.map Prod.snd).map
              (fun w => Event.peerWrite w (frame (typeDefBody tid)))
            ++ (s.peers.map Prod.snd).map
              (fun w => Event.peerWrite w (frame (valueBody tid { Key := key, Data := r })))) ∧
    (∀ h ∈ s.peers.map Prod.snd,
      (writesTo h (StoreData env tid s hist key r).1).flatten
        = (gobEncodeBuffer tid { Key := key, Data := r }).1) ∧
    (gobEncodeBuffer tid { Key := key, Data := r }).2 = none := by
  rw [StoreData_ok env tid s hist key r hstore1 hstore2 hok hsize,
    gobEncodeBuffer_small tid _ hsize]
  refine ⟨rfl, rfl, ?_, rfl⟩
  intro h hm
  have e1 : ∀ l : List Event,
      (Event.storeWrite key r :: Event.println r :: Event.mapRange :: l)
        = [Event.storeWrite key r, Event.println r, Event.mapRange] ++ l := fun _ => rfl
  rw [e1]
  rw [writesTo_append, writesTo_append, writesTo_map _ h _ hnd hm, writesTo_map _ h _ hnd hm]
  simp [writesTo, peerWrites]

/-- C4 as stated fails: encoding a payload of `2^33` zero bytes returns an
error, and what it wrote (the type descriptor alone) does not decode to the payload. -/
theorem gob_encode_refuses_huge_payload :
    (gobEncodeBuffer 65 hugePayload).2 = some GoError.gobTooBig ∧
    gobDecode (gobEncodeBuffer 65 hugePayload).1 ≠ .ok hugePayload := by
  rw [gobEncodeBuffer_big 65 hugePayload (hugePayload_tooBig 65)]
  refine ⟨rfl, ?_⟩
  have hd : gobDecode (frame (typeDefBody 65)) = .error DecErr.unexpectedEOF := by decide
  intro h
  simp only at h
  rw [hd] at h
  cases h

/-- C4 amended: for every payload whose value message is below the size limit
of gob, under any type id gob can assign, encoding succeeds and decoding the
encoded bytes succeeds and yields the same `Key` and `Data`, empty ones included. -/
theorem gob_round_trip_below_size_limit (tid : Int) (p : Payload)
    (h1 : 64 ≤ tid) (h2 : tid < 2 ^ 31)
    (hsize : (valueBody tid p).length < tooBig) :
    (gobEncodeBuffer tid p).2 = none ∧
    gobDecode (gobEncodeBuffer tid p).1 = .ok p := by
  rw [gobEncodeBuffer_small tid p hsize]
  exact ⟨rfl, gobDecode_frames tid p h1 h2 hsize⟩

/-! ## Instances of the theorems on concrete scenarios -/

/-- An instance of C1: the store refuses the write of "hello" under "greeting" on the server with peers A and B. -/
theorem StoreData_store_error_witness :
    (storeFails.storeWrite [] (str "greeting") (str "hello")).2 = some (GoError.other 1) ∧
    (StoreData storeFails 65 serverAB [] (str "greeting") (str "hello")).2
      = some (GoError.other 1) ∧
    peerWrites (StoreData storeFails 65 serverAB [] (str "greeting") (str "hello")).1 = [] :=
  ⟨rfl,
   (StoreData_store_error storeFails 65 serverAB [] (str "greeting") (str "hello")
      (GoError.other 1) rfl).1,
   (StoreData_store_error storeFails 65 serverAB [] (str "greeting") (str "hello")
      (GoError.other 1) rfl).2.2.1⟩

/-- An instance of C2: peers A and B are registered and `StoreData("greeting", "hello")` delivers the encoding of `{Key: "greeting", Data: "hello"}` to both. -/
theorem StoreData_success_delivers_encoding_witness :
    (allOK.storeWrite [] (str "greeting") (str "hello")).2 = none ∧
    (str "hello").length ≤ (allOK.storeWrite [] (str "greeting") (str "hello")).1 ∧
    AllWritesSucceed allOK ∧
    (valueBody 65 { Key := str "greeting", Data := str "hello" }).length < tooBig ∧
    (serverAB.peers.map Prod.snd).Nodup ∧
    serverAB.peers.map Prod.snd = [peerA, peerB] ∧
    (StoreData allOK 65 serverAB [] (str "greeting") (str "hello")).2 = none ∧
    (∀ h ∈ serverAB.peers.map Prod.snd,
      (writesTo h (StoreData allOK 65 serverAB [] (str "greeting") (str "hello")).1).flatten
        = (gobEncodeBuffer 65 { Key := str "greeting", Data := str "hello" }).1) :=
  ⟨rfl, by decide, allOK_writes, by decide, by decide, by decide,
   (StoreData_success_delivers_encoding allOK 65 serverAB [] (str "greeting") (str "hello")
      rfl (by decide) allOK_writes (by decide) (by decide)).1,
   (StoreData_success_delivers_encoding allOK 65 serverAB [] (str "greeting") (str "hello")
      rfl (by decide) allOK_writes (by decide) (by decide)).2.2.1⟩

/-- An instance of C3: three registered peers, each written to twice with the same two messages. -/
theorem broadcast_fan_out_two_writes_each_witness :
    AllWritesSucceed allOK ∧
    (valueBody 65 { Key := str "k", Data := [1, 2, 3] }).length < tooBig ∧
    (serverABC.peers.map Prod.snd).Nodup ∧
    (∀ h ∈ serverABC.peers.map Prod.snd,
      writesTo h (broadcast allOK 65 serverABC [] { Key := str "k", Data := [1, 2, 3] }).1
        = [frame (typeDefBody 65), frame (valueBody 65 { Key := str "k", Data := [1, 2, 3] })]) :=
  ⟨allOK_writes, by decide, by decide,
   (broadcast_fan_out_two_writes_each allOK 65 serverABC [] { Key := str "k", Data := [1, 2, 3] }
      allOK_writes (by decide) (by decide)).2.2.2⟩

/-- An instance of C4: the payload with empty `Key` and empty `Data` under type id 65. -/
theorem gob_round_trip_below_size_limit_witness :
    (64 : Int) ≤ 65 ∧ (65 : Int) < 2 ^ 31 ∧
    (valueBody 65 { Key := [], Data := [] }).length < tooBig ∧
    (gobEncodeBuffer 65 { Key := [], Data := [] }).2 = none ∧
    gobDecode (gobEncodeBuffer 65 { Key := [], Data := [] }).1 = .ok { Key := [], Data := [] } :=
  ⟨by decide, by decide, by decide,
   gob_round_trip_below_size_limit 65 { Key := [], Data := [] } (by decide) (by decide)
     (by decide)⟩

/-- An instance of C5: peers A, B and C are registered and every write to B fails; A has received the type descriptor, the write to B ends the call, C receives nothing. -/
theorem StoreData_broadcast_failure_aborts_witness :
    (peerBFails.storeWrite [] (str "greeting") (str "hello")).2 = none ∧
    (StoreData peerBFails 65 serverABC [] (str "greeting") (str "hello")).1
      = [Event.storeWrite (str "greeting") (str "hello"), Event.println (str "hello"),
          Event.mapRange, Event.peerWrite peerA (frame (typeDefBody 65))]
        ++ Event.peerWrite peerB (frame (typeDefBody 65)) :: [] ∧
    (peerBFails.peerWrite
        ([] ++ [Event.storeWrite (str "greeting") (str "hello"), Event.println (str "hello"),
          Event.mapRange, Event.peerWrite peerA (frame (typeDefBody 65))])
        peerB (frame (typeDefBody 65))).2 = some (GoError.other 7) ∧
    (StoreData peerBFails 65 serverABC [] (str "greeting") (str "hello")).2
      = some (GoError.other 7) :=
  ⟨rfl, by decide, by decide,
   (StoreData_broadcast_failure_aborts peerBFails 65 serverABC [] (str "greeting") (str "hello")
      (GoError.other 7)
      [Event.storeWrite (str "greeting") (str "hello"), Event.println (str "hello"),
        Event.mapRange, Event.peerWrite peerA (frame (typeDefBody 65))]
      [] peerB (frame (typeDefBody 65)) rfl (by decide) (by decide)).2.1⟩

/-- An instance of C6: two handles for the address of peer A registered one after the other on the server with peers A, B and C. -/
theorem OnPeer_twice_same_identity_witness :
    ({ addr := str ":3000", conn := 10 } : Peer).addr = str ":3000" ∧
    ({ addr := str ":3000", conn := 11 } : Peer).addr = str ":3000" ∧
    ((OnPeer (OnPeer serverABC { addr := str ":3000", conn := 10 }).1
        { addr := str ":3000", conn := 11 }).1.peers.filter (fun e => e.1 = str ":3000")
      = [(str ":3000", { addr := str ":3000", conn := 11 })]) ∧
    ((OnPeer (OnPeer serverABC { addr := str ":3000", conn := 10 }).1
        { addr := str ":3000", conn := 11 }).1.peers.filter (fun e => e.1 ≠ str ":3000")
      = serverABC.peers.filter (fun e => e.1 ≠ str ":3000")) :=
  ⟨rfl, rfl,
   (OnPeer_twice_same_identity serverABC (str ":3000") { addr := str ":3000", conn := 10 }
      { addr := str ":3000", conn := 11 } rfl rfl).1,
   (OnPeer_twice_same_identity serverABC (str ":3000") { addr := str ":3000", conn := 10 }
      { addr := str ":3000", conn := 11 } rfl rfl).2.1⟩

/-- An instance of C8: a malformed message followed by a valid one. -/
theorem loop_decode_failure_isolated_witness :
    serverAB.quitClosed = false ∧
    (loop decodeOrZero (startLoop serverAB)
      ([({ From := str ":3000", Payload := [1, 2] }, false),
        ({ From := str ":3000",
           Payload := (gobEncodeBuffer 65 { Key := str "k", Data := [7] }).1 }, true)].map
        (fun m => Action.select (some m.1) m.2))).returned = false ∧
    (loop decodeOrZero (startLoop serverAB)
      ([({ From := str ":3000", Payload := [1, 2] }, false),
        ({ From := str ":3000",
           Payload := (gobEncodeBuffer 65 { Key := str "k", Data := [7] }).1 }, true)].map
        (fun m => Action.select (some m.1) m.2))).srv = serverAB :=
  ⟨rfl,
   (loop_decode_failure_isolated decodeOrZero serverAB
      [({ From := str ":3000", Payload := [1, 2] }, false),
        ({ From := str ":3000",
           Payload := (gobEncodeBuffer 65 { Key := str "k", Data := [7] }).1 }, true)] rfl).1,
   (loop_decode_failure_isolated decodeOrZero serverAB
      [({ From := str ":3000", Payload := [1, 2] }, false),
        ({ From := str ":3000",
           Payload := (gobEncodeBuffer 65 { Key := str "k", Data := [7] }).1 }, true)]
      rfl).2.2.1⟩

/-- An instance of C9: one message before `Stop`, then a message the runtime prefers to the closed `quitch`, then a `select` with no message ready. -/
theorem loop_returns_exactly_on_quit_case_witness :
    serverAB.quitClosed = false ∧
    ((loop decodeOrZero (startLoop serverAB)
        ([({ From := str ":3000", Payload := [1, 2] }, false)].map
            (fun m => Action.select (some m.1) m.2)
          ++ Action.stop ::
            [(some { From := str ":3000", Payload := [1, 2] }, false), (none, false)].map
              selectAct)).returned = true
      ↔ ∃ x ∈ [(some ({ From := str ":3000", Payload := [1, 2] } : RPC), false), (none, false)],
          x.1 = none ∨ x.2 = true) :=
  ⟨rfl,
   (loop_returns_exactly_on_quit_case decodeOrZero serverAB rfl []
      [({ From := str ":3000", Payload := [1, 2] }, false)]
      [(some { From := str ":3000", Payload := [1, 2] }, false), (none, false)]).2.2⟩

/-- An instance of C10: four bootstrap entries, one empty and one repeated, the goroutines finishing in another order than they were started. -/
theorem bootstrapNetwork_dials_each_nonempty_once_witness :
    [str ":5000", str ":4000", str ":4000"].Perm (bootstrapNetwork newServer).1 ∧
    (bootstrapNetwork newServer).2 = none ∧
    (dials (runTasks allOK [] [str ":5000", str ":4000", str ":4000"])).Perm
      (newServer.BootstrapNodes.filter (fun a => a.length ≠ 0)) :=
  ⟨by decide,
   (bootstrapNetwork_dials_each_nonempty_once allOK newServer []
      [str ":5000", str ":4000", str ":4000"] (by decide)).1,
   (bootstrapNetwork_dials_each_nonempty_once allOK newServer []
      [str ":5000", str ":4000", str ":4000"] (by decide)).2.2.2.1⟩

end DFS
